import Mathlib

/-!
Verification of the playlist-ingestion and catalog-partitioning pipeline
implemented in `scripts/convert_m3u8_to_json.py`.

The Python source is shallowly embedded below.  Python strings are modelled
as Lean `String`s (logically lists of characters); `str.lower`/`str.upper`
are modelled for the ASCII and Latin-1 letter ranges, which covers every
string constant appearing in the source and its realistic inputs.  Python's
built-in `hash` on strings is salted per process (`PYTHONHASHSEED`), so it is
modelled as an explicit parameter `urlHash : String → Int` of a run; the
wall-clock timestamp written into the index is likewise a parameter.
Regular-expression operations of the source are embedded as executable
character-list functions; each one carries a comment naming the regex it
implements, and the leftmost-match / greedy / lazy semantics of the Python
`re` module are reproduced by explicit scanning.
-/

namespace Catalog

open scoped List

/-- Python `str.strip`'s whitespace class (ASCII part, which is all the
source ever meets): space, tab, newline, carriage return, vertical tab,
form feed.  Also the class matched by the regex `\s`. -/
def isPySpace (c : Char) : Bool :=
  c = ' ' || c = '\t' || c = '\n' || c = '\r' || c = '\x0b' || c = '\x0c'

/-- Python `str.lower` on one character, for ASCII and Latin-1 letters
(`À`–`Þ` except `×` map to `à`–`þ`); other characters are unchanged. -/
def pyLowerChar (c : Char) : Char :=
  if 'A' ≤ c && c ≤ 'Z' then Char.ofNat (c.toNat + 32)
  else if 0xC0 ≤ c.toNat && c.toNat ≤ 0xDE && c.toNat ≠ 0xD7 then Char.ofNat (c.toNat + 32)
  else c

/-- Python `str.upper` on one character, for ASCII and Latin-1 letters;
other characters are unchanged. -/
def pyUpperChar (c : Char) : Char :=
  if 'a' ≤ c && c ≤ 'z' then Char.ofNat (c.toNat - 32)
  else if 0xE0 ≤ c.toNat && c.toNat ≤ 0xFE && c.toNat ≠ 0xF7 then Char.ofNat (c.toNat - 32)
  else c

/-- Python `str.lower`. -/
def pyLower (s : String) : String := String.mk (s.toList.map pyLowerChar)

/-- Python `str.upper`. -/
def pyUpper (s : String) : String := String.mk (s.toList.map pyUpperChar)

/-- Strip leading and trailing whitespace from a character list. -/
def pyStripList (l : List Char) : List Char :=
  ((l.dropWhile isPySpace).reverse.dropWhile isPySpace).reverse

/-- Python `str.strip()`. -/
def pyStrip (s : String) : String := String.mk (pyStripList s.toList)

/-- Python `str.startswith`. -/
def pyStartsWith (s pre : String) : Bool := pre.toList.isPrefixOf s.toList

/-- Python `str.endswith`. -/
def pyEndsWith (s suf : String) : Bool := suf.toList.isSuffixOf s.toList

/-- Substring containment on character lists (Python's `sub in s`). -/
def containsSub (sub : List Char) : List Char → Bool
  | [] => sub.isPrefixOf []
  | c :: rest => sub.isPrefixOf (c :: rest) || containsSub sub rest

/-- Python's `sub in s` on strings. -/
def pyIn (sub s : String) : Bool := containsSub sub.toList s.toList

/-- Maximal run of decimal digits at the head of the list and the rest
(the regex `\d+`, greedy). -/
def takeDigits (l : List Char) : List Char × List Char :=
  (l.takeWhile Char.isDigit, l.dropWhile Char.isDigit)

/-- Skip the maximal run of whitespace (the regex `\s*`, greedy). -/
def skipWs (l : List Char) : List Char := l.dropWhile isPySpace

/-- Decimal value of a digit string (Python `int` applied to a regex
group of digits). -/
def digitsToNat (l : List Char) : Nat := l.foldl (fun a c => a * 10 + (c.toNat - 48)) 0

/-- Case-insensitive literal match at the head of the list: returns the
rest after the literal, or `none`.  `lit` is given lower-cased. -/
def litAt (lit : List Char) (l : List Char) : Option (List Char) :=
  match lit, l with
  | [], rest => some rest
  | _ :: _, [] => none
  | a :: la, c :: lc => if pyLowerChar c = a then litAt la lc else none

/-- Tail match for the regex fragment `\s*C1(\d+)\s*C2(\d+)` (case-insensitive
on the letters `C1`, `C2`, which are given lower-cased); trailing input is
ignored, as the patterns are not end-anchored. -/
def matchSepEp (c1 c2 : Char) (l : List Char) : Option (Nat × Nat) :=
  match skipWs l with
  | [] => none
  | a :: rest =>
    if pyLowerChar a = c1 then
      let (d1, rest1) := takeDigits rest
      if d1.isEmpty then none
      else
        match skipWs rest1 with
        | [] => none
        | b :: rest2 =>
          if pyLowerChar b = c2 then
            let (d2, _) := takeDigits rest2
            if d2.isEmpty then none else some (digitsToNat d1, digitsToNat d2)
          else none
    else none

/-- Tail match for the regex fragment `\s*(\d+)\s*x\s*(\d+)` (the `x` is
case-insensitive). -/
def matchXEp (l : List Char) : Option (Nat × Nat) :=
  let (d1, r1) := takeDigits (skipWs l)
  if d1.isEmpty then none
  else
    match skipWs r1 with
    | [] => none
    | b :: r2 =>
      if pyLowerChar b = 'x' then
        let (d2, _) := takeDigits (skipWs r2)
        if d2.isEmpty then none else some (digitsToNat d1, digitsToNat d2)
      else none

/-- Anchored match of `^(.+?)<tail>`: grow the lazy nonempty prefix one
character at a time (regex `.` never matches a newline) and return the
result of `tail` on the first split that succeeds, as Python's lazy `+?`
does.  `acc` is the prefix consumed so far. -/
def lazySplit (tail : List Char → Option (Nat × Nat)) (acc : List Char) :
    List Char → Option (List Char × Nat × Nat)
  | [] => none
  | c :: rest =>
    if c = '\n' then none
    else
      let acc2 := acc ++ [c]
      match tail rest with
      | some (x, y) => some (acc2, x, y)
      | none => lazySplit tail acc2 rest

/-- Model of `parse_series_info` (source lines 78–83): tries, in order, the anchored
patterns `^(.+?)\s*S(\d+)\s*E(\d+)`, `^(.+?)\s*T(\d+)\s*E(\d+)`,
`^(.+?)\s*(\d+)\s*x\s*(\d+)` (all IGNORECASE) and returns
`(group(1).strip(), int(group(2)), int(group(3)))` of the first match. -/
def parse_series_info (name : String) : Option (String × Nat × Nat) :=
  let l := name.toList
  let first := fun (r : Option (List Char × Nat × Nat)) (alt : Unit → Option (List Char × Nat × Nat)) =>
    match r with
    | some v => some v
    | none => alt ()
  let res := first (lazySplit (matchSepEp 's' 'e') [] l) (fun _ =>
    first (lazySplit (matchSepEp 't' 'e') [] l) (fun _ =>
      lazySplit matchXEp [] l))
  res.map (fun (g, s, e) => (String.mk (pyStripList g), s, e))

/-- Unanchored search for `C1\d+\s*C2\d+` (case-insensitive), the shape of
the episode patterns `S\d+\s*E\d+` and `T\d+\s*E\d+`. -/
def searchSepEp (c1 c2 : Char) : List Char → Bool
  | [] => false
  | c :: rest =>
    (if pyLowerChar c = c1 then
      let (d1, r1) := takeDigits rest
      if d1.isEmpty then false
      else
        match skipWs r1 with
        | [] => false
        | b :: r2 => pyLowerChar b = c2 && !(r2.takeWhile Char.isDigit).isEmpty
    else false) || searchSepEp c1 c2 rest

/-- Unanchored search for `\d+\s*x\s*\d+` (case-insensitive). -/
def searchX : List Char → Bool
  | [] => false
  | c :: rest =>
    (if c.isDigit then
      match skipWs ((c :: rest).dropWhile Char.isDigit) with
      | [] => false
      | b :: r2 => pyLowerChar b = 'x' && !((skipWs r2).takeWhile Char.isDigit).isEmpty
    else false) || searchX rest

/-- Unanchored search for `<lit>\.?\s*\d+` (case-insensitive literal; the
optional dot is only present for the `Temp\.?\s*\d+` pattern). -/
def searchLitNum (lit : List Char) (optDot : Bool) : List Char → Bool
  | [] => false
  | l@(_ :: rest) =>
    (match litAt lit l with
     | some r =>
       let r1 := if optDot then (match r with | '.' :: rr => rr | other => other) else r
       !((skipWs r1).takeWhile Char.isDigit).isEmpty
     | none => false) || searchLitNum lit optDot rest

/-- Model of `is_series_by_name` (source lines 69–70): does any of the episode
patterns `S\d+\s*E\d+`, `T\d+\s*E\d+`, `\d+\s*x\s*\d+`, `Temporada\s*\d+`,
`Temp\.?\s*\d+`, `Season\s*\d+` (IGNORECASE) match somewhere in the name? -/
def is_series_by_name (name : String) : Bool :=
  let l := name.toList
  searchSepEp 's' 'e' l || searchSepEp 't' 'e' l || searchX l ||
    searchLitNum "temporada".toList false l ||
    searchLitNum "temp".toList true l ||
    searchLitNum "season".toList false l

/-- Removal of the prefix matched by `^\d+\s*[-–]\s*` (first rewrite in
`clean_name`, source line 87); the input is returned unchanged when the
pattern does not match. -/
def dropOrdinal (l : List Char) : List Char :=
  let (d, r1) := takeDigits l
  if d.isEmpty then l
  else
    match skipWs r1 with
    | c :: r2 => if c = '-' || c = '–' then skipWs r2 else l
    | [] => l

/-- Drop trailing whitespace only. -/
def dropTrailWs (l : List Char) : List Char := (l.reverse.dropWhile isPySpace).reverse

/-- Removal of a trailing `[L]` marker: the rewrite `\s*\[L\]\s*$ → ''`
(IGNORECASE) of `clean_name`, source line 88. -/
def dropLMarker (l : List Char) : List Char :=
  match (dropTrailWs l).reverse with
  | ']' :: m :: '[' :: rest => if pyLowerChar m = 'l' then dropTrailWs rest.reverse else l
  | _ => l

/-- Try the pattern `\s*\(<mark>\)\s*` at the head of the list (`mark`
case-insensitive, lower-cased); returns the rest after the match. -/
def tryMarker (mark : List Char) (l : List Char) : Option (List Char) :=
  match l.dropWhile isPySpace with
  | '(' :: r1 =>
    match litAt mark r1 with
    | some (')' :: r3) => some (skipWs r3)
    | _ => none
  | _ => none

theorem length_dropWhile_le {α : Type} (p : α → Bool) (l : List α) :
    (l.dropWhile p).length ≤ l.length := by
  induction l with
  | nil => simp
  | cons c rest ih =>
    rw [List.dropWhile_cons]
    split
    · exact Nat.le_succ_of_le ih
    · simp

theorem litAt_length_le (lit : List Char) : ∀ l r, litAt lit l = some r → r.length ≤ l.length := by
  induction lit with
  | nil => intro l r h; simp [litAt] at h; simp [h]
  | cons a la ih =>
    intro l r h
    match l with
    | [] => simp [litAt] at h
    | c :: lc =>
      simp only [litAt] at h
      split at h
      · exact Nat.le_succ_of_le (ih lc r h)
      · exact absurd h (by simp)

theorem tryMarker_length_lt (mark : List Char) (l r : List Char)
    (h : tryMarker mark l = some r) : r.length < l.length := by
  unfold tryMarker at h
  split at h
  case _ r1 hd =>
    split at h
    case _ r3 hl =>
      simp only [Option.some.injEq] at h
      have h1 : r.length ≤ r3.length := by
        rw [← h]; exact length_dropWhile_le _ _
      have h2 : r3.length + 1 ≤ r1.length := by
        have := litAt_length_le mark r1 (')' :: r3) hl
        simpa using this
      have h3 : r1.length + 1 ≤ l.length := by
        have := length_dropWhile_le isPySpace l
        rw [hd] at this; simpa using this
      omega
    case _ => exact absurd h (by simp)
  case _ => exact absurd h (by simp)

/-- One pass of the rewrite `\s*\(<mark>\)\s* → ''` over the whole string
(Python `re.sub` removes every non-overlapping leftmost occurrence and
resumes scanning after the removed text).  When a match of `m` characters
is found at the current position, the next `m - 1` characters are skipped
via the `skip` counter (`tryMarker` always returns a proper suffix, so the
skipped characters are exactly the rest of the matched text); this keeps
the recursion structural on the list. -/
def subMarkerGo (mark : List Char) : Nat → List Char → List Char
  | _, [] => []
  | k + 1, _ :: rest => subMarkerGo mark k rest
  | 0, c :: rest =>
    match tryMarker mark (c :: rest) with
    | some r => subMarkerGo mark ((c :: rest).length - r.length - 1) rest
    | none => c :: subMarkerGo mark 0 rest

/-- The full rewrite `\s*\(<mark>\)\s* → ''`. -/
def subMarker (mark : List Char) (l : List Char) : List Char := subMarkerGo mark 0 l

/-- Model of `clean_name` (source lines 86–91): strip a leading `"<number> - "`
ordinal, a trailing `[L]`, all `(DUB)` and `(LEG)` markers, then strip
whitespace. -/
def clean_name (name : String) : String :=
  let l1 := dropOrdinal name.toList
  let l2 := dropLMarker l1
  let l3 := subMarker "dub".toList l2
  let l4 := subMarker "leg".toList l3
  String.mk (pyStripList l4)

/-- The fixed ignored-category list (source lines 19–29). -/
def IGNORED_CATEGORIES : List String := [
  "⏺️ ABERTO", "⏺️ BAND", "⏺️ SBT", "⏺️ GLOBO", "⏺️ RECORD", "⏺️ HBO",
  "⏺️ TELECINE", "⏺️ DISCOVERY", "⏺️ CINE SKY", "⏺️ FILMES E SERIES",
  "⏺️ NOTICIA", "⏺️ NBA", "⏺️ RUNTIME", "⏺️ 4K",
  "GLOBO (CENTRO-OESTE)", "GLOBO (NORDESTE)", "GLOBO (NORTE)",
  "GLOBO (SUDESTE)", "GLOBO (SUL)",
  "⚽APPLETV", "⚽DAZN", "⚽DISNEY", "⚽ESPORTE", "⚽HBO",
  "⚽PARAMOUNT", "⚽PREMIERE", "⚽PRIME", "⚽ COPINHA",
  "A FAZENDA", "BBB 20", "BBB 2026", "ESTRELA DA CASA",
  "Área do cliente", "JOGOS DE HOJE", "RÁDIOS FM", "CANAIS:"]

/-- The fixed adult-keyword list (source line 32).  Matching is
case-sensitive, as in the source. -/
def ADULT_KEYWORDS : List String := ["ADULTOS", "[HOT]", "XXX", "[Adulto]", "ADULTO", "❌❤️"]

/-- The fixed series-keyword list for categories (source line 35). -/
def SERIES_CATEGORY_KEYWORDS : List String :=
  ["series", "série", "novelas", "doramas", "programas", "stand up", "24h"]

/-- Model of `should_ignore_category` (source lines 55–61): the category is ignored
when, for some list entry, its upper-case form is a prefix of or equal to
the category's upper-case form, or the raw strings are equal. -/
def should_ignore_category (category : String) : Bool :=
  let upper := pyUpper category
  IGNORED_CATEGORIES.any fun ignored =>
    let upperIgnored := pyUpper ignored
    pyStartsWith upper upperIgnored || upper == upperIgnored || category == ignored

/-- Model of `is_series_by_category` (source lines 64–66). -/
def is_series_by_category (category : String) : Bool :=
  let lower := pyLower category
  SERIES_CATEGORY_KEYWORDS.any fun keyword => pyIn keyword lower

/-- Model of `is_adult_content` (source lines 73–75): keyword containment in
`f'{name} {category}'`, case-sensitive. -/
def is_adult_content (name category : String) : Bool :=
  let combined := name ++ " " ++ category
  ADULT_KEYWORDS.any fun keyword => pyIn keyword combined

/-- Collapse every whitespace run to a single hyphen (the rewrite
`\s+ → '-'` of `generate_id`, source line 96): the first whitespace
character of a run emits `'-'`, the rest of the run (`inRun = true`) is
skipped. -/
def collapseWsGo (inRun : Bool) : List Char → List Char
  | [] => []
  | c :: rest =>
    if isPySpace c then
      if inRun then collapseWsGo true rest else '-' :: collapseWsGo true rest
    else c :: collapseWsGo false rest

/-- The full rewrite `\s+ → '-'`. -/
def collapseWsToHyphen (l : List Char) : List Char := collapseWsGo false l

/-- ASCII lower-case letter or digit. -/
def isLowerAlnum (c : Char) : Bool := ('a' ≤ c && c ≤ 'z') || c.isDigit

/-- The name slug of `generate_id` (source lines 95–96): lower-case the
name, delete every character outside `[a-z0-9\s]`, strip, and collapse
internal whitespace runs to single hyphens. -/
def slugOf (name : String) : List Char :=
  let kept := (name.toList.map pyLowerChar).filter fun c => isLowerAlnum c || isPySpace c
  collapseWsToHyphen (pyStripList kept)

/-- Model of `generate_id` (source lines 94–99).  `urlHash` models Python's builtin
`hash` on strings, which is salted per process (`PYTHONHASHSEED`), so it is
a parameter of the run rather than a fixed function. -/
def generate_id (urlHash : String → Int) (name url : String) : String :=
  let normalized := String.mk (slugOf name)
  let url_hash := (toString (urlHash url).natAbs).toList
  let hash_part := if url_hash.length > 6 then url_hash.take 6 else url_hash
  normalized ++ "-" ++ String.mk hash_part

/-- Leftmost match of `20\d{2}` (the year extraction inside the
`lançamento` rule of `normalize_category`, source lines 233–236); on a
failed attempt the scan advances one character, i.e. continues on the
tail. -/
def findYear : List Char → Option String
  | [] => none
  | '2' :: l =>
    match l with
    | '0' :: c :: d :: _ =>
      if c.isDigit && d.isDigit then some (String.mk ['2', '0', c, d]) else findYear l
    | _ => findYear l
  | _ :: l => findYear l

/-- Python `str.replace(pat, '')` for nonempty `pat`: delete every
non-overlapping leftmost occurrence of `pat`.  When `pat` matches at the
current position its remaining `pat.length - 1` characters are skipped via
the counter, which keeps the recursion structural on the list. -/
def removeSubGo (pat : List Char) : Nat → List Char → List Char
  | _, [] => []
  | k + 1, _ :: rest => removeSubGo pat k rest
  | 0, c :: rest =>
    if pat.isPrefixOf (c :: rest) then removeSubGo pat (pat.length - 1) rest
    else c :: removeSubGo pat 0 rest

/-- Python `str.replace(pat, '')` on strings (the source only ever uses
nonempty patterns; an empty pattern is returned unchanged). -/
def strRemoveAll (s pat : String) : String :=
  if pat.toList.isEmpty then s else String.mk (removeSubGo pat.toList 0 s.toList)

/-- Capitalisation of the first character (`normalized[0].upper() +
normalized[1:]`, source line 109). -/
def capFirst (s : String) : String :=
  match s.toList with
  | [] => s
  | c :: r => String.mk (pyUpperChar c :: r)

/-- The structural-prefix stripping at the top of `normalize_category`
(source lines 103–115): `"OND /"`, `"Series |"` and `"COLETÂNEA:"`
prefixes, with the `"Filmes"`/`"Séries"` fallbacks for the first two. -/
def stripCatStart (category : String) : String :=
  if pyStartsWith category "OND /" then
    let n0 := pyStrip (strRemoveAll category "OND /")
    let n1 := if pyEndsWith n0 " -" then pyStrip (String.mk (n0.toList.dropLast.dropLast)) else n0
    let n2 := capFirst n1
    if n2 = "" then "Filmes" else n2
  else if pyStartsWith category "Series |" then
    let n0 := pyStrip (strRemoveAll category "Series |")
    if n0 = "" then "Séries" else n0
  else if pyStartsWith category "COLETÂNEA:" then
    pyStrip (strRemoveAll category "COLETÂNEA:")
  else category

/-- Model of `normalize_category` (source lines 102–275): strip structural prefixes,
then run the ordered if/elif rule chain on the lower-cased string and
return the canonical name of the first matching rule; with no match the
(prefix-stripped) category is returned unchanged. -/
def normalize_category (category : String) : String :=
  let category := stripCatStart category
  let lower := pyLower category
  if pyIn "netflix" lower then "Netflix"
  else if pyIn "prime video" lower || pyIn "amazon prime" lower then "Prime Video"
  else if pyIn "disney" lower then "Disney+"
  else if pyIn "max" lower && !pyIn "mad max" lower then "Max"
  else if pyIn "hbo" lower then "Max"
  else if pyIn "globoplay" lower then "Globoplay"
  else if pyIn "paramount" lower then "Paramount+"
  else if pyIn "apple" lower then "Apple TV+"
  else if pyIn "star" lower && pyIn "star plus" lower then "Star+"
  else if pyIn "discovery" lower then "Discovery+"
  else if pyIn "crunchyroll" lower then "Crunchyroll"
  else if pyIn "funimation" lower then "Funimation"
  else if pyIn "directv" lower then "DirecTV"
  else if pyIn "claro video" lower then "Claro Video"
  else if pyIn "lionsgate" lower then "Lionsgate"
  else if pyIn "plutotv" lower then "PlutoTV"
  else if pyIn "play plus" lower then "Play Plus"
  else if pyIn "amc" lower then "AMC+"
  else if pyIn "brasil paralelo" lower then "Brasil Paralelo"
  else if pyIn "sbt" lower then "SBT"
  else if pyIn "univer" lower then "Univer"
  else if pyIn "novela" lower then "Novelas"
  else if pyIn "dorama" lower then "Doramas"
  else if pyIn "anime" lower then "Animes"
  else if pyIn "turca" lower then "Turcas"
  else if pyIn "programas de tv" lower || lower == "programas" then "Programas de TV"
  else if pyIn "stand up" lower || pyIn "stand-up" lower then "Stand Up"
  else if pyIn "legendad" lower then "Legendados"
  else if pyIn "document" lower || lower == "docu" then "Documentário"
  else if pyIn "com" lower && (pyIn "dia" lower || pyIn "edia" lower || pyIn "édia" lower) then "Comédia"
  else if pyIn "drama" lower then "Drama"
  else if pyIn "terror" lower then "Terror"
  else if pyStartsWith lower "a" && (pyIn "ção" lower || pyIn "cao" lower) then "Ação"
  else if pyIn "suspense" lower then "Suspense"
  else if pyIn "romance" lower then "Romance"
  else if pyIn "anima" lower && (pyIn "ção" lower || pyIn "cao" lower) then "Animação"
  else if pyIn "fantasia" lower || (pyIn "fic" lower && pyIn "o" lower) then "Fantasia"
  else if pyIn "faroeste" lower then "Faroeste"
  else if pyIn "guerra" lower then "Guerra"
  else if pyIn "aventura" lower then "Aventura"
  else if pyIn "religio" lower then "Religiosos"
  else if pyIn "nacion" lower then "Nacionais"
  else if pyIn "crime" lower then "Crime"
  else if pyIn "fam" lower && pyIn "lia" lower then "Família"
  else if pyIn "marvel" lower || pyIn "ucm" lower then "Marvel"
  else if pyIn "4k" lower || pyIn "uhd" lower then "UHD 4K"
  else if pyIn "infantil" lower then "Infantil"
  else if pyIn "esporte" lower then "Esportes"
  else if pyIn "show" lower then "Shows"
  else if pyIn "cinema" lower then "Cinema"
  else if pyIn "oscar" lower then "Oscar"
  else if pyIn "hot" lower || pyIn "adult" lower then "Adultos"
  else if pyIn "sugest" lower || pyIn "semana" lower then "Sugestão da Semana"
  else if pyIn "outra" lower && pyIn "produtora" lower then "Outras Produtoras"
  else if pyIn "lançamento" lower || pyIn "lancamento" lower then
    match findYear category.toList with
    | some year => "Lançamentos " ++ year
    | none => "Lançamentos"
  else if pyIn "dublagem" lower && pyIn "oficial" lower then "Dublagem Não Oficial"
  else if lower == "alien" then "Coletânea: Alien"
  else if pyIn "american pie" lower then "Coletânea: American Pie"
  else if pyIn "john wick" lower || pyIn "jhon wick" lower then "Coletânea: John Wick"
  else if pyIn "denzel" lower then "Coletânea: Denzel Washington"
  else if pyIn "mad max" lower then "Coletânea: Mad Max"
  else if pyIn "homem aranha" lower || pyIn "aranha" lower then "Coletânea: Homem Aranha"
  else if pyIn "jogos mortais" lower then "Coletânea: Jogos Mortais"
  else if pyIn "jogos vorazes" lower then "Coletânea: Jogos Vorazes"
  else if pyIn "mib" lower || pyIn "homens de preto" lower then "Coletânea: MIB"
  else if pyIn "exterminador" lower then "Coletânea: Exterminador"
  else if pyIn "shrek" lower then "Coletânea: Shrek"
  else if pyIn "p" lower && pyIn "nico" lower && pyIn "todo" lower then "Coletânea: Todo Mundo em Pânico"
  else if pyIn "toy story" lower then "Coletânea: Toy Story"
  else if pyIn "harry potter" lower then "Coletânea: Harry Potter"
  else if pyIn "senhor dos" lower && pyIn "an" lower then "Coletânea: Senhor dos Anéis"
  else if pyIn "crep" lower && pyIn "sculo" lower then "Coletânea: Crepúsculo"
  else category

/-- Collapse every run of characters outside `[a-z0-9]` to one underscore
(the rewrite `[^a-z0-9]+ → '_'` of `category_to_filename`, source
line 279): the first character of a run emits `'_'`, the rest of the run
(`inRun = true`) is skipped. -/
def collapseNonAlnumGo (inRun : Bool) : List Char → List Char
  | [] => []
  | c :: rest =>
    if isLowerAlnum c then c :: collapseNonAlnumGo false rest
    else if inRun then collapseNonAlnumGo true rest
    else '_' :: collapseNonAlnumGo true rest

/-- Model of `category_to_filename` (source lines 278–281): lower-case, collapse
non-alphanumeric runs to underscores, strip leading/trailing
underscores. -/
def category_to_filename (category : String) : String :=
  let l := collapseNonAlnumGo false (pyLower category).toList
  String.mk (((l.dropWhile fun c => c = '_').reverse.dropWhile fun c => c = '_').reverse)

/-- Content type of an entry (`'movie'` / `'series'` strings in the
source). -/
inductive ContentType where
  | movie
  | series
deriving DecidableEq

/-- One catalog item (the dict built at source lines 341–359).  Optional
JSON keys (`logo`, `isAdult`, series info) are `Option`/`Bool` fields; the
transient `_category` dict key, removed again before serialisation, is the
`category` field. -/
structure Item where
  id : String
  name : String
  url : String
  type : ContentType
  logo : Option String
  isAdult : Bool
  seriesInfo : Option (String × Nat × Nat)
  category : String
deriving DecidableEq

/-- The mutable pending state of the lexer loop (`current_name`,
`current_category`, `current_logo`, source lines 295–297). -/
structure LexState where
  name : Option String
  category : Option String
  logo : Option String
deriving DecidableEq

/-- The all-`None` state the loop starts from and resets to. -/
def initState : LexState := ⟨none, none, none⟩

/-- Python truthiness of `current_name`: not `None` and not empty. -/
def nameTruthy : Option String → Bool
  | none => false
  | some s => !(s == "")

/-- Leftmost unanchored search for `<pat>"([^"]*)"` where `pat` ends in a
double quote (the `group-title="([^"]*)"` and `tvg-logo="([^"]*)"`
searches, source lines 304 and 308): at each position, if `pat` matches
literally, capture up to the next quote, which must exist; otherwise
resume scanning one character further on. -/
def searchCapture (pat : List Char) : List Char → Option (List Char)
  | [] => none
  | l@(_ :: rest) =>
    if pat.isPrefixOf l then
      let r := l.drop pat.length
      let v := r.takeWhile fun c => c ≠ '"'
      if (r.drop v.length).isEmpty then searchCapture pat rest else some v
    else searchCapture pat rest

/-- The `group-title` attribute of a metadata line, or `none`. -/
def extractGroupTitle (line : String) : Option String :=
  (searchCapture "group-title=\"".toList line.toList).map String.mk

/-- The `tvg-logo` attribute of a metadata line, or `none`. -/
def extractLogo (line : String) : Option String :=
  (searchCapture "tvg-logo=\"".toList line.toList).map String.mk

/-- Tail after the first comma of the list, or `none`. -/
def findCommaTail : List Char → Option (List Char)
  | [] => none
  | c :: rest => if c = ',' then some rest else findCommaTail rest

/-- The display name: the regex search `,(.+)$` (source line 312) captures
everything after the first comma that is followed by at least one
character (a first comma with an empty tail is the last character of the
line, so no later start position can match either).  Lines have already
been split on newlines, so `.` never sees a newline and `$` is the end of
the line. -/
def extractName (line : String) : Option String :=
  match findCommaTail line.toList with
  | some t => if t.isEmpty then none else some (String.mk t)
  | none => none

/-- Model of `category = current_category or 'Outros'` (source line 325): the
pending category, defaulting to `"Outros"` when it is `None` or empty
(both falsy). -/
def pendingCategory (st : LexState) : String :=
  match st.category with
  | some c => if c == "" then "Outros" else c
  | none => "Outros"

/-- One iteration of the line loop of `parse_m3u8_file` (source lines
299–364), returning the successor state and the entries appended to
`items` (zero or one).  `urlHash` is the per-process string hash used by
`generate_id`. -/
def lexLine (urlHash : String → Int) (st : LexState) (rawLine : String) :
    LexState × List Item :=
  let line := pyStrip rawLine
  if pyStartsWith line "#EXTINF:" then
    ({ name := (extractName line).map pyStrip,
       category := some ((extractGroupTitle line).getD "Outros"),
       logo := extractLogo line }, [])
  else if pyStartsWith line "http" && nameTruthy st.name then
    let url := line
    if pyEndsWith (pyLower url) ".ts" then (initState, [])
    else
      let category := pendingCategory st
      if should_ignore_category category then (initState, [])
      else
        let currentName := st.name.getD ""
        let cleaned := clean_name currentName
        let isAd := is_adult_content currentName category
        let isSer := is_series_by_category category || is_series_by_name currentName
        let sInfo := parse_series_info currentName
        let ctype : ContentType := if isSer || sInfo.isSome then .series else .movie
        let logo := match st.logo with
          | some lg => if lg == "" then none else some lg
          | none => none
        (initState,
         [{ id := generate_id urlHash cleaned url,
            name := cleaned,
            url := url,
            type := ctype,
            logo := logo,
            isAdult := isAd,
            seriesInfo := sInfo,
            category := normalize_category category }])
  else (st, [])

/-- The whole line loop of `parse_m3u8_file`: thread the pending state
through the lines and concatenate the produced entries. -/
def lexAll (urlHash : String → Int) (st : LexState) : List String → List Item
  | [] => []
  | line :: rest =>
    let r := lexLine urlHash st line
    r.2 ++ lexAll urlHash r.1 rest

/-- Model of `parse_m3u8_file` on one file's text content: split on newlines and
run the loop from the all-`None` state. -/
def parseContent (urlHash : String → Int) (content : String) : List Item :=
  lexAll urlHash initState (content.splitOn "\n")

/-- The URL-deduplication loop of `main` (source lines 401–411), with the
`seen_urls` set modelled as the list of urls added so far (only membership
is used). -/
def dedupGo (seen : List String) : List Item → List Item
  | [] => []
  | it :: rest =>
    if seen.contains it.url then dedupGo seen rest
    else it :: dedupGo (it.url :: seen) rest

/-- Deduplication of the full parsed sequence: keep an item iff its url
was not seen before. -/
def dedup (items : List Item) : List Item := dedupGo [] items

/-- Append an item to its category's group, keeping dict insertion order
(`by_category.setdefault(category, []).append(item)`, source lines
418–421). -/
def insertGroup (acc : List (String × List Item)) (it : Item) : List (String × List Item) :=
  match acc with
  | [] => [(it.category, [it])]
  | (c, l) :: rest =>
    if c == it.category then (c, l ++ [it]) :: rest
    else (c, l) :: insertGroup rest it

/-- Grouping by canonical category, in insertion order (a Python 3.7+
dict preserves key insertion order). -/
def groupByCat (items : List Item) : List (String × List Item) :=
  items.foldl insertGroup []

/-- One output JSON document (file writes of `main`).  `file` documents are
the `{category, movies, series}` shape (both the per-category file and the
`*_movies` overflow file, which shares it); `page` documents are the
paginated `{category, page, totalPages, movies, series}` shape; `adultSide`
documents are the `{category, items}` shape of `*_adult.json` files. -/
inductive Doc where
  | file (category : String) (movies series : List Item)
  | page (category : String) (pageNum totalPages : Nat) (movies series : List Item)
  | adultSide (category : String) (items : List Item)
deriving DecidableEq

/-- One entry of the category index (source lines 481–500). -/
structure IndexEntry where
  id : String
  name : String
  movieCount : Nat
  seriesCount : Nat
  adultCount : Nat
  totalCount : Nat
  pages : Option Nat
  hasMovies : Option Bool
deriving DecidableEq

/-- The constant `MAX_ITEMS_PER_FILE` (source line 381). -/
def MAX_ITEMS_PER_FILE : Nat := 5000

/-- The slicing `[l[i:i+k] for i in range(0, len(l), k)]` used to build
`series_pages` and `movies_pages` (source lines 447–448); `range(0, n, k)`
has `⌈n/k⌉` elements. -/
def slicePages {α : Type} (k : Nat) (l : List α) : List (List α) :=
  (List.range ((l.length + k - 1) / k)).map fun i => (l.drop (i * k)).take k

/-- The paginated-file loop (source lines 451–465): one `page` document per
series page, with 1-based page numbers starting at `i` and a shared
`totalPages`. -/
def mkPageDocs (fb cat : String) (tp : Nat) : Nat → List (List Item) → List (String × Doc)
  | _, [] => []
  | i, p :: ps =>
    (fb ++ "_p" ++ toString i, Doc.page cat i tp [] p) :: mkPageDocs fb cat tp (i + 1) ps

/-- The per-category body of `main`'s output loop (source lines 429–524):
split the group into non-adult movies, non-adult series and adult items,
emit either one `{category, movies, series}` document or paginated series
documents plus a `*_movies` document, always emit a `*_adult` side file
when adult items exist, and build the category's index entry.  Returns the
written documents (filename stem, content) in write order, and the index
entry. -/
def emitCategory (category : String) (items : List Item) : List (String × Doc) × IndexEntry :=
  let filename_base := category_to_filename category
  let movies := items.filter fun m => decide (m.type = ContentType.movie) && !m.isAdult
  let series := items.filter fun m => decide (m.type = ContentType.series) && !m.isAdult
  let adult := items.filter fun m => m.isAdult
  let total_items := movies.length + series.length + adult.length
  let adultDocs : List (String × Doc) :=
    if adult.isEmpty then []
    else [(filename_base ++ "_adult", Doc.adultSide category adult)]
  if total_items > MAX_ITEMS_PER_FILE then
    let series_pages := slicePages MAX_ITEMS_PER_FILE series
    let movies_pages := slicePages MAX_ITEMS_PER_FILE movies
    let pageDocs :=
      mkPageDocs filename_base category (max series_pages.length movies_pages.length) 1 series_pages
    let moviesDocs : List (String × Doc) :=
      if movies.isEmpty then []
      else [(filename_base ++ "_movies", Doc.file category movies [])]
    (pageDocs ++ moviesDocs ++ adultDocs,
     { id := filename_base, name := category,
       movieCount := movies.length, seriesCount := series.length,
       adultCount := adult.length, totalCount := total_items,
       pages := some (max series_pages.length 1),
       hasMovies := some (decide (0 < movies.length)) })
  else
    ((filename_base, Doc.file category movies series) :: adultDocs,
     { id := filename_base, name := category,
       movieCount := movies.length, seriesCount := series.length,
       adultCount := adult.length, totalCount := total_items,
       pages := none, hasMovies := none })

/-- Stable insertion of an index entry into a descending-by-`totalCount`
list: the entry goes after every already-present entry with a greater or
equal count.  Folding this over the entries reproduces Python's stable
`list.sort(key=..., reverse=True)` (source line 527). -/
def insertEntryDesc (e : IndexEntry) : List IndexEntry → List IndexEntry
  | [] => [e]
  | x :: xs =>
    if e.totalCount ≤ x.totalCount then x :: insertEntryDesc e xs
    else e :: x :: xs

/-- Stable descending sort of the category index by `totalCount`. -/
def sortIndexDesc (entries : List IndexEntry) : List IndexEntry :=
  entries.foldl (fun acc e => insertEntryDesc e acc) []

/-- The `index.json` document (source lines 530–538).  `generatedAt` is the
wall-clock timestamp `datetime.now().isoformat()`, a parameter of the
run. -/
structure IndexDoc where
  version : Nat
  generatedAt : String
  totalMovies : Nat
  totalSeries : Nat
  totalAdult : Nat
  maxItemsPerPage : Nat
  categories : List IndexEntry
deriving DecidableEq

/-- The complete output of one run: category documents in write order plus
the index document. -/
structure RunOutput where
  catFiles : List (String × Doc)
  index : IndexDoc
deriving DecidableEq

/-- Model of `main` (source lines 369–542) as a function of the run's string-hash
function, its clock reading and the input files' text contents: parse all
files in order (`all_items.extend`), deduplicate by url, group by
canonical category, emit the per-category documents and finally the sorted
index. -/
def run (urlHash : String → Int) (now : String) (files : List String) : RunOutput :=
  let all_items := (files.map fun content => parseContent urlHash content).flatten
  let unique_items := dedup all_items
  let by_category := groupByCat unique_items
  let perCat := by_category.map fun g => emitCategory g.1 g.2
  let category_index := sortIndexDesc (perCat.map Prod.snd)
  { catFiles := (perCat.map Prod.fst).flatten,
    index := { version := 2, generatedAt := now,
               totalMovies := (category_index.map fun c => c.movieCount).sum,
               totalSeries := (category_index.map fun c => c.seriesCount).sum,
               totalAdult := (category_index.map fun c => c.adultCount).sum,
               maxItemsPerPage := MAX_ITEMS_PER_FILE,
               categories := category_index } }

/-! ## Specification-side definitions

These definitions follow the wording of the specification and are compared
with the corresponding source-translated definitions by the refinement
theorems below. -/

/-- The slug of §4.4, following the spec's words: name lower-cased,
characters outside `[a-z0-9\s]` removed, outer whitespace stripped,
internal whitespace runs collapsed to single hyphens. -/
def slugSpec (name : String) : String :=
  String.mk (collapseWsToHyphen (pyStripList
    ((pyLower name).toList.filter fun c => isLowerAlnum c || isPySpace c)))

/-- The hash suffix of §4.4, following the spec's words: the first six
characters of the decimal string representation of the url hash. -/
def hash6Spec (urlHash : String → Int) (url : String) : String :=
  String.mk ((toString (urlHash url).natAbs).toList.take 6)

/-- One rule of the normalization table of §4.3: a predicate on the
(prefix-stripped) category and the canonical name it produces. -/
structure CatRule where
  pred : String → Bool
  out : String → String

/-- First-match evaluation of an ordered rule table (§4.3: return on the
first match; no match leaves the string unchanged). -/
def applyRules : List CatRule → String → String
  | [], c => c
  | r :: rs, c => if r.pred c then r.out c else applyRules rs c

/-- The ordered decision table of §4.3, in the documented order: streaming
platforms, then genres, then franchise collections.  Every predicate is a
case-insensitive substring/equality test on the prefix-stripped category
(compound tests combine such tests). -/
def catRules : List CatRule := [
  ⟨fun c => pyIn "netflix" (pyLower c), fun _ => "Netflix"⟩,
  ⟨fun c => pyIn "prime video" (pyLower c) || pyIn "amazon prime" (pyLower c), fun _ => "Prime Video"⟩,
  ⟨fun c => pyIn "disney" (pyLower c), fun _ => "Disney+"⟩,
  ⟨fun c => pyIn "max" (pyLower c) && !pyIn "mad max" (pyLower c), fun _ => "Max"⟩,
  ⟨fun c => pyIn "hbo" (pyLower c), fun _ => "Max"⟩,
  ⟨fun c => pyIn "globoplay" (pyLower c), fun _ => "Globoplay"⟩,
  ⟨fun c => pyIn "paramount" (pyLower c), fun _ => "Paramount+"⟩,
  ⟨fun c => pyIn "apple" (pyLower c), fun _ => "Apple TV+"⟩,
  ⟨fun c => pyIn "star" (pyLower c) && pyIn "star plus" (pyLower c), fun _ => "Star+"⟩,
  ⟨fun c => pyIn "discovery" (pyLower c), fun _ => "Discovery+"⟩,
  ⟨fun c => pyIn "crunchyroll" (pyLower c), fun _ => "Crunchyroll"⟩,
  ⟨fun c => pyIn "funimation" (pyLower c), fun _ => "Funimation"⟩,
  ⟨fun c => pyIn "directv" (pyLower c), fun _ => "DirecTV"⟩,
  ⟨fun c => pyIn "claro video" (pyLower c), fun _ => "Claro Video"⟩,
  ⟨fun c => pyIn "lionsgate" (pyLower c), fun _ => "Lionsgate"⟩,
  ⟨fun c => pyIn "plutotv" (pyLower c), fun _ => "PlutoTV"⟩,
  ⟨fun c => pyIn "play plus" (pyLower c), fun _ => "Play Plus"⟩,
  ⟨fun c => pyIn "amc" (pyLower c), fun _ => "AMC+"⟩,
  ⟨fun c => pyIn "brasil paralelo" (pyLower c), fun _ => "Brasil Paralelo"⟩,
  ⟨fun c => pyIn "sbt" (pyLower c), fun _ => "SBT"⟩,
  ⟨fun c => pyIn "univer" (pyLower c), fun _ => "Univer"⟩,
  ⟨fun c => pyIn "novela" (pyLower c), fun _ => "Novelas"⟩,
  ⟨fun c => pyIn "dorama" (pyLower c), fun _ => "Doramas"⟩,
  ⟨fun c => pyIn "anime" (pyLower c), fun _ => "Animes"⟩,
  ⟨fun c => pyIn "turca" (pyLower c), fun _ => "Turcas"⟩,
  ⟨fun c => pyIn "programas de tv" (pyLower c) || pyLower c == "programas", fun _ => "Programas de TV"⟩,
  ⟨fun c => pyIn "stand up" (pyLower c) || pyIn "stand-up" (pyLower c), fun _ => "Stand Up"⟩,
  ⟨fun c => pyIn "legendad" (pyLower c), fun _ => "Legendados"⟩,
  ⟨fun c => pyIn "document" (pyLower c) || pyLower c == "docu", fun _ => "Documentário"⟩,
  ⟨fun c => pyIn "com" (pyLower c) &&
    (pyIn "dia" (pyLower c) || pyIn "edia" (pyLower c) || pyIn "édia" (pyLower c)),
    fun _ => "Comédia"⟩,
  ⟨fun c => pyIn "drama" (pyLower c), fun _ => "Drama"⟩,
  ⟨fun c => pyIn "terror" (pyLower c), fun _ => "Terror"⟩,
  ⟨fun c => pyStartsWith (pyLower c) "a" && (pyIn "ção" (pyLower c) || pyIn "cao" (pyLower c)),
    fun _ => "Ação"⟩,
  ⟨fun c => pyIn "suspense" (pyLower c), fun _ => "Suspense"⟩,
  ⟨fun c => pyIn "romance" (pyLower c), fun _ => "Romance"⟩,
  ⟨fun c => pyIn "anima" (pyLower c) && (pyIn "ção" (pyLower c) || pyIn "cao" (pyLower c)),
    fun _ => "Animação"⟩,
  ⟨fun c => pyIn "fantasia" (pyLower c) || (pyIn "fic" (pyLower c) && pyIn "o" (pyLower c)),
    fun _ => "Fantasia"⟩,
  ⟨fun c => pyIn "faroeste" (pyLower c), fun _ => "Faroeste"⟩,
  ⟨fun c => pyIn "guerra" (pyLower c), fun _ => "Guerra"⟩,
  ⟨fun c => pyIn "aventura" (pyLower c), fun _ => "Aventura"⟩,
  ⟨fun c => pyIn "religio" (pyLower c), fun _ => "Religiosos"⟩,
  ⟨fun c => pyIn "nacion" (pyLower c), fun _ => "Nacionais"⟩,
  ⟨fun c => pyIn "crime" (pyLower c), fun _ => "Crime"⟩,
  ⟨fun c => pyIn "fam" (pyLower c) && pyIn "lia" (pyLower c), fun _ => "Família"⟩,
  ⟨fun c => pyIn "marvel" (pyLower c) || pyIn "ucm" (pyLower c), fun _ => "Marvel"⟩,
  ⟨fun c => pyIn "4k" (pyLower c) || pyIn "uhd" (pyLower c), fun _ => "UHD 4K"⟩,
  ⟨fun c => pyIn "infantil" (pyLower c), fun _ => "Infantil"⟩,
  ⟨fun c => pyIn "esporte" (pyLower c), fun _ => "Esportes"⟩,
  ⟨fun c => pyIn "show" (pyLower c), fun _ => "Shows"⟩,
  ⟨fun c => pyIn "cinema" (pyLower c), fun _ => "Cinema"⟩,
  ⟨fun c => pyIn "oscar" (pyLower c), fun _ => "Oscar"⟩,
  ⟨fun c => pyIn "hot" (pyLower c) || pyIn "adult" (pyLower c), fun _ => "Adultos"⟩,
  ⟨fun c => pyIn "sugest" (pyLower c) || pyIn "semana" (pyLower c), fun _ => "Sugestão da Semana"⟩,
  ⟨fun c => pyIn "outra" (pyLower c) && pyIn "produtora" (pyLower c), fun _ => "Outras Produtoras"⟩,
  ⟨fun c => pyIn "lançamento" (pyLower c) || pyIn "lancamento" (pyLower c),
    fun c => match findYear c.toList with
      | some year => "Lançamentos " ++ year
      | none => "Lançamentos"⟩,
  ⟨fun c => pyIn "dublagem" (pyLower c) && pyIn "oficial" (pyLower c), fun _ => "Dublagem Não Oficial"⟩,
  ⟨fun c => pyLower c == "alien", fun _ => "Coletânea: Alien"⟩,
  ⟨fun c => pyIn "american pie" (pyLower c), fun _ => "Coletânea: American Pie"⟩,
  ⟨fun c => pyIn "john wick" (pyLower c) || pyIn "jhon wick" (pyLower c), fun _ => "Coletânea: John Wick"⟩,
  ⟨fun c => pyIn "denzel" (pyLower c), fun _ => "Coletânea: Denzel Washington"⟩,
  ⟨fun c => pyIn "mad max" (pyLower c), fun _ => "Coletânea: Mad Max"⟩,
  ⟨fun c => pyIn "homem aranha" (pyLower c) || pyIn "aranha" (pyLower c), fun _ => "Coletânea: Homem Aranha"⟩,
  ⟨fun c => pyIn "jogos mortais" (pyLower c), fun _ => "Coletânea: Jogos Mortais"⟩,
  ⟨fun c => pyIn "jogos vorazes" (pyLower c), fun _ => "Coletânea: Jogos Vorazes"⟩,
  ⟨fun c => pyIn "mib" (pyLower c) || pyIn "homens de preto" (pyLower c), fun _ => "Coletânea: MIB"⟩,
  ⟨fun c => pyIn "exterminador" (pyLower c), fun _ => "Coletânea: Exterminador"⟩,
  ⟨fun c => pyIn "shrek" (pyLower c), fun _ => "Coletânea: Shrek"⟩,
  ⟨fun c => pyIn "p" (pyLower c) && pyIn "nico" (pyLower c) && pyIn "todo" (pyLower c),
    fun _ => "Coletânea: Todo Mundo em Pânico"⟩,
  ⟨fun c => pyIn "toy story" (pyLower c), fun _ => "Coletânea: Toy Story"⟩,
  ⟨fun c => pyIn "harry potter" (pyLower c), fun _ => "Coletânea: Harry Potter"⟩,
  ⟨fun c => pyIn "senhor dos" (pyLower c) && pyIn "an" (pyLower c), fun _ => "Coletânea: Senhor dos Anéis"⟩,
  ⟨fun c => pyIn "crep" (pyLower c) && pyIn "sculo" (pyLower c), fun _ => "Coletânea: Crepúsculo"⟩]

/-- The normalizer as described by the spec: strip the structural prefix,
then evaluate the ordered table, first match wins, no match passes the
stripped string through. -/
def normalizeCategorySpec (category : String) : String :=
  applyRules catRules (stripCatStart category)

/-- Splitting into consecutive fixed-size chunks, following the spec's
words for §4.6 pagination (bound-sized chunks, last chunk may be shorter).
The `k = 0` guard only serves termination; the bound used is 5000. -/
def chunksSpec {α : Type} (k : Nat) (l : List α) : List (List α) :=
  if h : l.isEmpty || k == 0 then [] else l.take k :: chunksSpec k (l.drop k)
termination_by l.length
decreasing_by
  have h1 : l ≠ [] := by
    intro he; rw [he] at h; simp at h
  have h2 : k ≠ 0 := by
    intro he; rw [he] at h; simp at h
  have h3 : 0 < l.length := List.length_pos.mpr h1
  rw [List.length_drop]; omega

/-- The partitioner as described by §4.6: the same grouping into adult,
non-adult movies and non-adult series; one `{category, movies, series}`
document when the total is within the bound; otherwise one document per
series chunk with 1-based page numbers and `totalPages` the larger of the
series and movies chunk counts, plus a `*_movies` document when movies
exist; an `*_adult` side file whenever adult items exist. -/
def emitCategorySpec (category : String) (items : List Item) : List (String × Doc) × IndexEntry :=
  let fb := category_to_filename category
  let movies := items.filter fun m => decide (m.type = ContentType.movie) && !m.isAdult
  let series := items.filter fun m => decide (m.type = ContentType.series) && !m.isAdult
  let adult := items.filter fun m => m.isAdult
  let total := movies.length + series.length + adult.length
  let adultDocs : List (String × Doc) :=
    if adult.isEmpty then [] else [(fb ++ "_adult", Doc.adultSide category adult)]
  if total ≤ MAX_ITEMS_PER_FILE then
    ((fb, Doc.file category movies series) :: adultDocs,
     { id := fb, name := category, movieCount := movies.length, seriesCount := series.length,
       adultCount := adult.length, totalCount := total, pages := none, hasMovies := none })
  else
    let sp := chunksSpec MAX_ITEMS_PER_FILE series
    let mp := chunksSpec MAX_ITEMS_PER_FILE movies
    ((sp.enumFrom 1).map
        (fun p => (fb ++ "_p" ++ toString p.1, Doc.page category p.1 (max sp.length mp.length) [] p.2))
       ++ (if movies.isEmpty then [] else [(fb ++ "_movies", Doc.file category movies [])])
       ++ adultDocs,
     { id := fb, name := category, movieCount := movies.length, seriesCount := series.length,
       adultCount := adult.length, totalCount := total,
       pages := some (max sp.length 1), hasMovies := some (decide (0 < movies.length)) })

theorem slicePages_nil {α : Type} {k : Nat} (hk : 0 < k) : slicePages k ([] : List α) = [] := by
  simp [slicePages, Nat.div_eq_of_lt (by omega : k - 1 < k)]

theorem slicePages_step {α : Type} {k : Nat} (hk : 0 < k) (l : List α) (hl : l ≠ []) :
    slicePages k l = l.take k :: slicePages k (l.drop k) := by
  have hn : 1 ≤ l.length := List.length_pos.mpr hl
  unfold slicePages
  have h1 : l.length + k - 1 = (l.length - 1) + k := by omega
  rw [h1, Nat.add_div_right _ hk, List.range_succ_eq_map, List.map_cons, List.map_map]
  congr 1
  · simp
  · have h2 : (l.length - 1) / k = ((l.drop k).length + k - 1) / k := by
      rw [List.length_drop]
      by_cases hc : k ≤ l.length
      · congr 1; omega
      · rw [Nat.div_eq_of_lt (by omega), Nat.div_eq_of_lt (by omega)]
    rw [h2]
    apply List.map_congr_left
    intro i _
    show (l.drop (Nat.succ i * k)).take k = ((l.drop k).drop (i * k)).take k
    rw [List.drop_drop, Nat.succ_mul, Nat.add_comm]

theorem slicePages_eq_chunksSpec {α : Type} {k : Nat} (hk : 0 < k) (l : List α) :
    slicePages k l = chunksSpec k l := by
  have main : ∀ (n : Nat) (l : List α), l.length ≤ n → slicePages k l = chunksSpec k l := by
    intro n
    induction n with
    | zero =>
      intro l hl
      have he : l = [] := List.eq_nil_of_length_eq_zero (Nat.le_zero.mp hl)
      subst he
      rw [slicePages_nil hk, chunksSpec]
      simp
    | succ n ih =>
      intro l hl
      cases hc : l with
      | nil => rw [slicePages_nil hk, chunksSpec]; simp
      | cons a t =>
        rw [← hc, slicePages_step hk l (by rw [hc]; exact List.cons_ne_nil a t), chunksSpec]
        rw [dif_neg (by rw [hc]; simp [Nat.pos_iff_ne_zero.mp hk])]
        congr 1
        apply ih
        rw [List.length_drop]
        have : l.length = t.length + 1 := by rw [hc]; simp
        omega
  exact main l.length l le_rfl

theorem mkPageDocs_eq_enumFrom (fb cat : String) (tp : Nat) :
    ∀ (ps : List (List Item)) (i : Nat),
      mkPageDocs fb cat tp i ps =
        (ps.enumFrom i).map fun p => (fb ++ "_p" ++ toString p.1, Doc.page cat p.1 tp [] p.2) := by
  intro ps
  induction ps with
  | nil => intro i; rfl
  | cons p rest ih => intro i; rw [mkPageDocs, List.enumFrom_cons, List.map_cons, ih (i + 1)]

/-- The page shape of a document: page number, total pages, series count —
`none` for non-page documents. -/
def pageShape : Doc → Option (Nat × Nat × Nat)
  | .page _ p tp _ s => some (p, tp, s.length)
  | _ => none

/-- A synthetic non-adult series item with a distinct url per index. -/
def sampleSeriesItem (n : Nat) : Item :=
  { id := "", name := "s", url := toString n, type := ContentType.series, logo := none,
    isAdult := false, seriesInfo := none, category := "Séries" }

/-- The `movies` list of an output document (`[]` for adult side files,
whose JSON shape has no `movies` key). -/
def docMovies : Doc → List Item
  | .file _ m _ => m
  | .page _ _ _ m _ => m
  | .adultSide _ _ => []

/-- The `series` list of an output document (`[]` for adult side files). -/
def docSeries : Doc → List Item
  | .file _ _ s => s
  | .page _ _ _ _ s => s
  | .adultSide _ _ => []

/-- The `items` list of an adult side file (`[]` for the other shapes). -/
def docAdultItems : Doc → List Item
  | .adultSide _ its => its
  | _ => []

theorem mkPageDocs_mem {fb cat : String} {tp : Nat} :
    ∀ {ps : List (List Item)} {i : Nat} {fn : String} {d : Doc},
      (fn, d) ∈ mkPageDocs fb cat tp i ps → ∃ p ∈ ps, ∃ j, d = Doc.page cat j tp [] p := by
  intro ps
  induction ps with
  | nil => intro i fn d h; simp [mkPageDocs] at h
  | cons p rest ih =>
    intro i fn d h
    rw [mkPageDocs] at h
    rcases List.mem_cons.mp h with h | h
    · exact ⟨p, List.mem_cons_self p rest, i, (Prod.ext_iff.mp h).2⟩
    · obtain ⟨q, hq, j, hd⟩ := ih h
      exact ⟨q, List.mem_cons_of_mem p hq, j, hd⟩

theorem slicePages_sublists {α : Type} {k : Nat} {l p : List α} (h : p ∈ slicePages k l) :
    ∀ x ∈ p, x ∈ l := by
  unfold slicePages at h
  obtain ⟨i, -, hp⟩ := List.mem_map.mp h
  intro x hx
  rw [← hp] at hx
  exact List.mem_of_mem_drop (List.mem_of_mem_take hx)

/-- No adult item ever sits in the `movies` or `series` list of a document
emitted for a category group. -/
theorem emitCategory_no_adult :
    ∀ (category : String) (items : List Item) (fn : String) (d : Doc) (x : Item),
      (fn, d) ∈ (emitCategory category items).1 →
      (x ∈ docMovies d ∨ x ∈ docSeries d) → x.isAdult = false := by
  intro category items fn d x hmem hx
  have hmov : ∀ y : Item,
      y ∈ items.filter (fun m => decide (m.type = ContentType.movie) && !m.isAdult) →
      y.isAdult = false := by
    intro y hy
    have := (List.mem_filter.mp hy).2
    rw [Bool.and_eq_true] at this
    simpa using this.2
  have hser : ∀ y : Item,
      y ∈ items.filter (fun m => decide (m.type = ContentType.series) && !m.isAdult) →
      y.isAdult = false := by
    intro y hy
    have := (List.mem_filter.mp hy).2
    rw [Bool.and_eq_true] at this
    simpa using this.2
  simp only [emitCategory] at hmem
  split at hmem
  · rcases List.mem_append.mp hmem with hmem | hmem
    · rcases List.mem_append.mp hmem with hmem | hmem
      · obtain ⟨p, hp, j, hd⟩ := mkPageDocs_mem hmem
        subst hd
        rcases hx with hx | hx
        · simp [docMovies] at hx
        · simp only [docSeries] at hx
          exact hser x (slicePages_sublists hp x hx)
      · split at hmem
        · simp at hmem
        · rw [List.mem_singleton] at hmem
          injection hmem with hfn hd
          subst hd
          rcases hx with hx | hx
          · exact hmov x (by simpa [docMovies] using hx)
          · simp [docSeries] at hx
    · split at hmem
      · simp at hmem
      · rw [List.mem_singleton] at hmem
        injection hmem with hfn hd
        subst hd
        rcases hx with hx | hx
        · simp [docMovies] at hx
        · simp [docSeries] at hx
  · rcases List.mem_cons.mp hmem with hmem | hmem
    · injection hmem with hfn hd
      subst hd
      rcases hx with hx | hx
      · exact hmov x (by simpa [docMovies] using hx)
      · exact hser x (by simpa [docSeries] using hx)
    · split at hmem
      · simp at hmem
      · rw [List.mem_singleton] at hmem
        injection hmem with hfn hd
        subst hd
        rcases hx with hx | hx
        · simp [docMovies] at hx
        · simp [docSeries] at hx

/-- The deduplicator as described by §4.5: keep the head, drop every later
entry sharing its url, recurse on the survivors. -/
def keepFirst : List Item → List Item
  | [] => []
  | x :: xs => x :: keepFirst (xs.filter fun y => !(y.url == x.url))
termination_by l => l.length
decreasing_by
  simp only [List.length_cons]
  exact Nat.lt_succ_of_le (List.length_filter_le _ _)

theorem keepFirst_nil : keepFirst [] = [] := by
  simp [keepFirst]

theorem keepFirst_cons (x : Item) (xs : List Item) :
    keepFirst (x :: xs) = x :: keepFirst (xs.filter fun y => !(y.url == x.url)) := by
  simp [keepFirst]

theorem dedupGo_eq_keepFirst (l : List Item) :
    ∀ seen, dedupGo seen l = keepFirst (l.filter fun y => !(seen.contains y.url)) := by
  induction l with
  | nil => intro seen; rw [List.filter_nil, keepFirst_nil]; rfl
  | cons it rest ih =>
    intro seen
    rw [dedupGo, List.filter_cons]
    by_cases h : seen.contains it.url = true
    · rw [if_pos h, if_neg (by rw [h]; simp)]
      exact ih seen
    · have hc : seen.contains it.url = false := by simpa using h
      rw [if_neg h, if_pos (by rw [hc]; rfl)]
      rw [keepFirst_cons, ih (it.url :: seen)]
      congr 1
      rw [List.filter_filter]
      congr 1
      apply List.filter_congr
      intro y _
      rw [List.contains_cons, Bool.not_or]

theorem dedup_eq_keepFirst (items : List Item) : dedup items = keepFirst items := by
  unfold dedup
  rw [dedupGo_eq_keepFirst]
  congr 1
  rw [show (fun y : Item => !(([] : List String).contains y.url)) = fun _ => true from rfl]
  exact List.filter_true items

theorem dedupGo_nodup (l : List Item) :
    ∀ seen, ((dedupGo seen l).map fun i => i.url).Nodup ∧
      ∀ x ∈ dedupGo seen l, seen.contains x.url = false := by
  induction l with
  | nil => intro seen; exact ⟨List.nodup_nil, by intro x hx; simp [dedupGo] at hx⟩
  | cons it rest ih =>
    intro seen
    rw [dedupGo]
    by_cases h : seen.contains it.url = true
    · rw [if_pos h]
      exact ih seen
    · have hc : seen.contains it.url = false := by simpa using h
      rw [if_neg h]
      obtain ⟨ihn, ihs⟩ := ih (it.url :: seen)
      constructor
      · rw [List.map_cons, List.nodup_cons]
        refine ⟨?_, ihn⟩
        intro hmem
        obtain ⟨x, hx, hxeq⟩ := List.mem_map.mp hmem
        have := ihs x hx
        rw [List.contains_cons, hxeq] at this
        simp at this
      · intro x hx
        rcases List.mem_cons.mp hx with hx | hx
        · rw [hx]; exact hc
        · have := ihs x hx
          rw [List.contains_cons] at this
          exact (Bool.or_eq_false_iff.mp this).2

/-- The three per-type sub-lists of a category group are a permutation of
the group (every item lands in exactly one of them). -/
theorem filter_partition_perm (items : List Item) :
    (items.filter fun m => decide (m.type = ContentType.movie) && !m.isAdult) ++
      (items.filter fun m => decide (m.type = ContentType.series) && !m.isAdult) ++
      (items.filter fun m => m.isAdult) ~ items := by
  induction items with
  | nil => simp
  | cons x rest ih =>
    by_cases ha : x.isAdult = true
    · have hp1 : (decide (x.type = ContentType.movie) && !x.isAdult) = false := by
        rw [ha]; simp
      have hp2 : (decide (x.type = ContentType.series) && !x.isAdult) = false := by
        rw [ha]; simp
      simp only [List.filter_cons, hp1, hp2, if_neg (by simp : ¬(false = true)), if_pos ha]
      exact (List.perm_middle).trans (ih.cons x)
    · cases ht : x.type with
      | movie =>
        have hp1 : (decide (x.type = ContentType.movie) && !x.isAdult) = true := by
          rw [ht, Bool.not_eq_true] at *
          rw [ha]; simp
        have hp2 : (decide (x.type = ContentType.series) && !x.isAdult) = false := by
          rw [ht]; simp
        simp only [List.filter_cons, hp1, hp2, if_neg (by simp : ¬(false = true)),
          if_pos rfl, if_neg ha, List.cons_append]
        exact ih.cons x
      | series =>
        have hp1 : (decide (x.type = ContentType.movie) && !x.isAdult) = false := by
          rw [ht]; simp
        have hp2 : (decide (x.type = ContentType.series) && !x.isAdult) = true := by
          rw [Bool.not_eq_true] at ha
          rw [ht, ha]; simp
        simp only [List.filter_cons, hp1, hp2, if_neg (by simp : ¬(false = true)),
          if_pos rfl, if_neg ha, List.cons_append]
        exact ((List.perm_middle.append_right _).trans (ih.cons x))

theorem flatten_slicePages {α : Type} {k : Nat} (hk : 0 < k) (l : List α) :
    (slicePages k l).flatten = l := by
  have main : ∀ (n : Nat) (l : List α), l.length ≤ n → (slicePages k l).flatten = l := by
    intro n
    induction n with
    | zero =>
      intro l hl
      have he : l = [] := List.eq_nil_of_length_eq_zero (Nat.le_zero.mp hl)
      subst he
      rw [slicePages_nil hk]
      rfl
    | succ n ih =>
      intro l hl
      cases hc : l with
      | nil => rw [slicePages_nil hk]; rfl
      | cons a t =>
        rw [← hc, slicePages_step hk l (by rw [hc]; exact List.cons_ne_nil a t),
          List.flatten_cons, ih (l.drop k) (by
            rw [List.length_drop]
            have : l.length = t.length + 1 := by rw [hc]; simp
            omega)]
        exact List.take_append_drop k l
  exact main l.length l le_rfl

/-- The items of all documents of one category group, in document order,
are a permutation of the group's items. -/
theorem emitCategory_flatten_perm (category : String) (items : List Item) :
    (((emitCategory category items).1.map
      fun p => docMovies p.2 ++ docSeries p.2 ++ docAdultItems p.2).flatten) ~ items := by
  have hk : 0 < MAX_ITEMS_PER_FILE := by decide
  have hpages : ∀ (fb cat : String) (tp i : Nat) (ps : List (List Item)),
      (mkPageDocs fb cat tp i ps).map
        (fun p => docMovies p.2 ++ docSeries p.2 ++ docAdultItems p.2) = ps := by
    intro fb cat tp i ps
    induction ps generalizing i with
    | nil => rfl
    | cons p rest ih => rw [mkPageDocs, List.map_cons, ih (i + 1)]; simp [docMovies, docSeries, docAdultItems]
  have hADocs : ∀ (s : String),
      ((if (items.filter fun m => m.isAdult).isEmpty then []
        else [(s, Doc.adultSide category (items.filter fun m => m.isAdult))]).map
         (fun p => docMovies p.2 ++ docSeries p.2 ++ docAdultItems p.2)).flatten =
        items.filter fun m => m.isAdult := by
    intro s
    by_cases h : (items.filter fun m => m.isAdult).isEmpty = true
    · rw [if_pos h, List.isEmpty_iff.mp h]; rfl
    · rw [if_neg h]; simp [docMovies, docSeries, docAdultItems]
  simp only [emitCategory]
  split
  · rw [List.map_append, List.map_append, List.flatten_append, List.flatten_append, hpages,
      flatten_slicePages hk, hADocs]
    have hmdocs :
        ((if (items.filter fun m =>
            decide (m.type = ContentType.movie) && !m.isAdult).isEmpty then []
          else [(category_to_filename category ++ "_movies",
                 Doc.file category (items.filter fun m =>
                   decide (m.type = ContentType.movie) && !m.isAdult) [])]).map
           (fun p => docMovies p.2 ++ docSeries p.2 ++ docAdultItems p.2)).flatten =
          items.filter fun m => decide (m.type = ContentType.movie) && !m.isAdult := by
      by_cases h : (items.filter fun m =>
          decide (m.type = ContentType.movie) && !m.isAdult).isEmpty = true
      · rw [if_pos h, List.isEmpty_iff.mp h]; rfl
      · rw [if_neg h]; simp [docMovies, docSeries, docAdultItems]
    rw [hmdocs]
    refine List.Perm.trans ?_ (filter_partition_perm items)
    exact (List.perm_append_comm.append_right _)
  · rw [List.map_cons, List.flatten_cons, hADocs]
    refine List.Perm.trans ?_ (filter_partition_perm items)
    simp [docMovies, docSeries, docAdultItems, List.append_assoc]

/-- Flattening the grouped items gives back the grouped sequence, up to
permutation. -/
theorem insertGroup_flatten_perm (acc : List (String × List Item)) (it : Item) :
    ((insertGroup acc it).map fun g => g.2).flatten ~ it :: (acc.map fun g => g.2).flatten := by
  induction acc with
  | nil => simp [insertGroup]
  | cons g rest ih =>
    rw [insertGroup]
    by_cases h : g.1 == it.category
    · rw [if_pos h]
      simp only [List.map_cons, List.flatten_cons]
      calc (g.2 ++ [it]) ++ (rest.map fun g => g.2).flatten
          ~ (it :: g.2) ++ (rest.map fun g => g.2).flatten := by
            exact List.Perm.append_right _ (List.perm_append_comm)
        _ = it :: (g.2 ++ (rest.map fun g => g.2).flatten) := rfl
    · rw [if_neg h]
      simp only [List.map_cons, List.flatten_cons]
      calc g.2 ++ ((insertGroup rest it).map fun g => g.2).flatten
          ~ g.2 ++ (it :: (rest.map fun g => g.2).flatten) := List.Perm.append_left _ ih
        _ ~ it :: (g.2 ++ (rest.map fun g => g.2).flatten) := List.perm_middle

theorem groupByCat_flatten_perm (items : List Item) :
    ((groupByCat items).map fun g => g.2).flatten ~ items := by
  have main : ∀ (l : List Item) (acc : List (String × List Item)),
      ((l.foldl insertGroup acc).map fun g => g.2).flatten ~
        (acc.map fun g => g.2).flatten ++ l := by
    intro l
    induction l with
    | nil => intro acc; simp
    | cons x rest ih =>
      intro acc
      rw [List.foldl_cons]
      refine (ih (insertGroup acc x)).trans ?_
      refine List.Perm.trans (List.Perm.append_right rest (insertGroup_flatten_perm acc x)) ?_
      exact List.perm_middle.symm.trans (by rfl)
  simpa using main items []

/-- Erase the only hash-dependent field of an item. -/
def stripItem (i : Item) : Item := { i with id := "" }

/-- Erase the ids of every item in a document. -/
def stripDoc : Doc → Doc
  | .file c m s => .file c (m.map stripItem) (s.map stripItem)
  | .page c p tp m s => .page c p tp (m.map stripItem) (s.map stripItem)
  | .adultSide c its => .adultSide c (its.map stripItem)

/-- Erase the run-dependent data of a run's output: the item ids (salted
url hash) and the index's generation timestamp (clock). -/
def stripRun (r : RunOutput) : RunOutput :=
  { catFiles := r.catFiles.map fun p => (p.1, stripDoc p.2),
    index := { r.index with generatedAt := "" } }

/-- The hash-independent part of one lexer step. -/
def stripLex (r : LexState × List Item) : LexState × List Item :=
  (r.1, r.2.map stripItem)

theorem stripLex_lexLine (h1 h2 : String → Int) (st : LexState) (line : String) :
    stripLex (lexLine h1 st line) = stripLex (lexLine h2 st line) := by
  by_cases hA : pyStartsWith (pyStrip line) "#EXTINF:" = true
  · simp [lexLine, hA]
  · by_cases hB : (pyStartsWith (pyStrip line) "http" && nameTruthy st.name) = true
    · by_cases hC : pyEndsWith (pyLower (pyStrip line)) ".ts" = true
      · simp [lexLine, hA, hB, hC]
      · by_cases hD : should_ignore_category (pendingCategory st) = true
        · simp [lexLine, hA, hB, hC, hD]
        · simp [lexLine, hA, hB, hC, hD, stripLex, stripItem]
    · simp [lexLine, hA, hB]

theorem lexAll_hash_invariant (h1 h2 : String → Int) :
    ∀ (lines : List String) (st : LexState),
      (lexAll h1 st lines).map stripItem = (lexAll h2 st lines).map stripItem := by
  intro lines
  induction lines with
  | nil => intro st; rfl
  | cons l rest ih =>
    intro st
    have h := stripLex_lexLine h1 h2 st l
    have hst : (lexLine h1 st l).1 = (lexLine h2 st l).1 := by
      have := congrArg Prod.fst h
      simpa [stripLex] using this
    have hout : (lexLine h1 st l).2.map stripItem = (lexLine h2 st l).2.map stripItem := by
      have := congrArg Prod.snd h
      simpa [stripLex] using this
    simp only [lexAll, List.map_append]
    rw [hout, hst, ih]

theorem dedup_map_stripItem (l : List Item) :
    dedup (l.map stripItem) = (dedup l).map stripItem := by
  have main : ∀ (l : List Item) (seen : List String),
      dedupGo seen (l.map stripItem) = (dedupGo seen l).map stripItem := by
    intro l
    induction l with
    | nil => intro seen; rfl
    | cons it rest ih =>
      intro seen
      rw [List.map_cons, dedupGo, dedupGo]
      have hurl : (stripItem it).url = it.url := rfl
      rw [hurl]
      by_cases h : seen.contains it.url = true
      · rw [if_pos h, if_pos h, ih]
      · rw [if_neg h, if_neg h, List.map_cons, ih]
  exact main l []

/-- Erase the ids inside a grouped list. -/
def stripGroups (groups : List (String × List Item)) : List (String × List Item) :=
  groups.map fun g => (g.1, g.2.map stripItem)

theorem insertGroup_strip (acc : List (String × List Item)) (it : Item) :
    insertGroup (stripGroups acc) (stripItem it) = stripGroups (insertGroup acc it) := by
  induction acc with
  | nil => rfl
  | cons g rest ih =>
    rw [stripGroups, List.map_cons]
    rw [insertGroup, insertGroup]
    have hcat : (stripItem it).category = it.category := rfl
    rw [hcat]
    by_cases h : g.1 == it.category
    · rw [if_pos h, if_pos h]
      rw [stripGroups, List.map_cons, List.map_append]
      rfl
    · rw [if_neg h, if_neg h]
      rw [stripGroups, List.map_cons]
      have := ih
      rw [stripGroups] at this
      rw [this]
      rfl

theorem groupByCat_strip (l : List Item) :
    groupByCat (l.map stripItem) = stripGroups (groupByCat l) := by
  have main : ∀ (l : List Item) (acc : List (String × List Item)),
      (l.map stripItem).foldl insertGroup (stripGroups acc) =
        stripGroups (l.foldl insertGroup acc) := by
    intro l
    induction l with
    | nil => intro acc; rfl
    | cons x rest ih =>
      intro acc
      rw [List.map_cons, List.foldl_cons, List.foldl_cons, insertGroup_strip, ih]
  exact main l []

theorem isEmpty_map {α β : Type} (f : α → β) (l : List α) : (l.map f).isEmpty = l.isEmpty := by
  cases l <;> rfl

theorem slicePages_map {α β : Type} (f : α → β) (k : Nat) (l : List α) :
    slicePages k (l.map f) = (slicePages k l).map (List.map f) := by
  unfold slicePages
  rw [List.length_map, List.map_map]
  apply List.map_congr_left
  intro i _
  show ((l.map f).drop (i * k)).take k = ((l.drop (i * k)).take k).map f
  rw [← List.map_drop, ← List.map_take]

theorem mkPageDocs_map_strip (fb cat : String) (tp : Nat) :
    ∀ (ps : List (List Item)) (i : Nat),
      mkPageDocs fb cat tp i (ps.map (List.map stripItem)) =
        (mkPageDocs fb cat tp i ps).map fun p => (p.1, stripDoc p.2) := by
  intro ps
  induction ps with
  | nil => intro i; rfl
  | cons p rest ih =>
    intro i
    rw [List.map_cons, mkPageDocs, mkPageDocs, List.map_cons, ih (i + 1)]
    rfl

theorem emitCategory_strip (category : String) (items : List Item) :
    emitCategory category (items.map stripItem) =
      ((emitCategory category items).1.map fun p => (p.1, stripDoc p.2),
       (emitCategory category items).2) := by
  have hfil : ∀ (p : Item → Bool), (∀ m, p (stripItem m) = p m) →
      (items.map stripItem).filter p = (items.filter p).map stripItem := by
    intro p hp
    rw [List.filter_map]
    congr 1
    exact List.filter_congr fun a _ => hp a
  have hmov := hfil (fun m => decide (m.type = ContentType.movie) && !m.isAdult) (fun m => rfl)
  have hser := hfil (fun m => decide (m.type = ContentType.series) && !m.isAdult) (fun m => rfl)
  have hadu := hfil (fun m => m.isAdult) (fun m => rfl)
  simp only [emitCategory, hmov, hser, hadu, List.length_map, isEmpty_map,
    slicePages_map, mkPageDocs_map_strip]
  by_cases h : (items.filter fun m => decide (m.type = ContentType.movie) && !m.isAdult).length +
      (items.filter fun m => decide (m.type = ContentType.series) && !m.isAdult).length +
      (items.filter fun m => m.isAdult).length > MAX_ITEMS_PER_FILE
  · rw [if_pos h, if_pos h]
    simp only [List.map_append, List.length_map]
    congr 1
    · congr 1
      · by_cases hm : (items.filter fun m =>
            decide (m.type = ContentType.movie) && !m.isAdult).isEmpty = true
        · rw [if_pos hm, if_pos hm]; rfl
        · rw [if_neg hm, if_neg hm]; rfl
      · by_cases hA : (items.filter fun m => m.isAdult).isEmpty = true
        · rw [if_pos hA, if_pos hA]; rfl
        · rw [if_neg hA, if_neg hA]; rfl
  · rw [if_neg h, if_neg h]
    simp only [List.map_cons]
    congr 2
    by_cases hA : (items.filter fun m => m.isAdult).isEmpty = true
    · rw [if_pos hA, if_pos hA]; rfl
    · rw [if_neg hA, if_neg hA]; rfl

/-- The document list of the whole run, with ids erased, as a function of
the id-erased groups. -/
theorem runDocs_strip (groups : List (String × List Item)) :
    (((groups.map fun g => emitCategory g.1 g.2).map Prod.fst).flatten).map
        (fun p => (p.1, stripDoc p.2)) =
      (((stripGroups groups).map fun g => emitCategory g.1 g.2).map Prod.fst).flatten := by
  rw [List.map_flatten, stripGroups]
  rw [List.map_map, List.map_map, List.map_map, List.map_map]
  congr 1
  apply List.map_congr_left
  intro g _
  show ((emitCategory g.1 g.2).1).map (fun p => (p.1, stripDoc p.2)) =
    (emitCategory g.1 (g.2.map stripItem)).1
  rw [emitCategory_strip]

/-- The index entries of the whole run as a function of the id-erased
groups. -/
theorem runEntries_strip (groups : List (String × List Item)) :
    ((groups.map fun g => emitCategory g.1 g.2).map Prod.snd) =
      (((stripGroups groups).map fun g => emitCategory g.1 g.2).map Prod.snd) := by
  rw [stripGroups, List.map_map, List.map_map, List.map_map]
  apply List.map_congr_left
  intro g _
  show (emitCategory g.1 g.2).2 = (emitCategory g.1 (g.2.map stripItem)).2
  rw [emitCategory_strip]

/-! ## Claim theorems -/

/-- C4: for the entry named `"Breaking Bad S02E05"` with category
`"Series | Drama"`, the lexer/classifier produces exactly one item of type
`series` with parsed series tuple `("Breaking Bad", 2, 5)` and canonical
category `"Drama"`, for every url-hash function; and the two component
functions give the parsed tuple and the normalized category directly. -/
theorem breaking_bad_classification :
    (∀ urlHash : String → Int,
      (lexAll urlHash initState
          ["#EXTINF:-1 group-title=\"Series | Drama\",Breaking Bad S02E05",
           "http://host/bb.mp4"]).map
          (fun it => (it.name, it.type, it.seriesInfo, it.category)) =
        [("Breaking Bad S02E05", ContentType.series,
          some ("Breaking Bad", 2, 5), "Drama")]) ∧
    parse_series_info "Breaking Bad S02E05" = some ("Breaking Bad", 2, 5) ∧
    normalize_category "Series | Drama" = "Drama" :=
  ⟨fun _ => rfl, by decide, by decide⟩

/-- C3 (counterexample): the id of an item is not a function of the name
and url alone — it also depends on the run's url-hash function, which for
Python's salted string `hash` changes from process to process.  Two runs
whose hash functions differ on the url give different ids for the same
`(name, url)`. -/
theorem generate_id_varies_with_hash_seed :
    generate_id (fun _ => (0 : Int)) "Matrix" "http://host/m.mp4" ≠
      generate_id (fun _ => (123456789 : Int)) "Matrix" "http://host/m.mp4" := by
  decide

/-- C3 (amended): for every url-hash function — i.e. within any single
run — `generate_id` returns exactly `"<slug>-<hash6>"` where the slug and
the six-character decimal hash part are as specified, and the result is
never empty.  Determinism for fixed `(name, url)` within a run is
immediate since `generate_id` is a function of the hash, name and url. -/
theorem generate_id_form_and_nonempty :
    ∀ (urlHash : String → Int) (name url : String),
      generate_id urlHash name url = slugSpec name ++ "-" ++ hash6Spec urlHash url ∧
      generate_id urlHash name url ≠ "" := by
  intro urlHash name url
  have hform : generate_id urlHash name url = slugSpec name ++ "-" ++ hash6Spec urlHash url := by
    unfold generate_id slugSpec hash6Spec slugOf
    simp only [pyLower, String.toList]
    by_cases h : ((toString (urlHash url).natAbs).data.length > 6)
    · simp only [if_pos h]
    · simp only [if_neg h]
      rw [List.take_of_length_le (by omega)]
  refine ⟨hform, ?_⟩
  rw [hform]
  intro hcontra
  have : (slugSpec name ++ "-" ++ hash6Spec urlHash url).length = (0 : Nat) := by
    rw [hcontra]; rfl
  simp [String.length_append] at this
  exact absurd this.1.2 (by decide)

/-- A line that starts with `"http"` cannot start with `"#EXTINF:"`. -/
theorem http_not_extinf (s : String) (h : pyStartsWith s "http" = true) :
    pyStartsWith s "#EXTINF:" = false := by
  unfold pyStartsWith at h ⊢
  rw [show "http".toList = ['h', 't', 't', 'p'] from rfl] at h
  rw [show "#EXTINF:".toList = ['#', 'E', 'X', 'T', 'I', 'N', 'F', ':'] from rfl]
  match hl : s.toList with
  | [] => rw [hl] at h; simp [List.isPrefixOf] at h
  | c :: rest =>
    rw [hl] at h
    simp only [List.isPrefixOf, Bool.and_eq_true, beq_iff_eq] at h
    obtain ⟨hc, -⟩ := h
    subst hc
    simp [List.isPrefixOf]

/-- C9: a trimmed line that begins with `"http"`, arriving while a pending
(truthy) name exists, whose lower-cased form ends in `".ts"`, produces no
item and resets the pending state to all-`None`, for every url-hash
function and every pending state; the following metadata line therefore
starts from a fresh state, and the `.ts` line is never classified as a
movie or a series. -/
theorem ts_line_resets_state :
    ∀ (urlHash : String → Int) (st : LexState) (rawLine : String),
      pyStartsWith (pyStrip rawLine) "http" = true →
      nameTruthy st.name = true →
      pyEndsWith (pyLower (pyStrip rawLine)) ".ts" = true →
      lexLine urlHash st rawLine = (initState, []) := by
  intro urlHash st rawLine h1 h2 h3
  simp [lexLine, h1, h2, h3, http_not_extinf _ h1]

/-- C9 witness: a concrete pending state and a concrete `.ts` url line. -/
theorem ts_line_resets_state_witness :
    lexLine (fun _ => (0 : Int)) ⟨some "Filme", some "Filmes", none⟩ "http://host/live.ts" =
      (initState, []) :=
  ts_line_resets_state (fun _ => 0) ⟨some "Filme", some "Filmes", none⟩ "http://host/live.ts"
    (by decide) (by decide) (by decide)

/-- C8: (1) a category that matches an entry of the ignored-category list
exactly, case-insensitively, or as a case-insensitive prefix is flagged by
`should_ignore_category`; (2) a url line arriving while the pending
category is flagged produces no item and resets the state, so the entry
reaches no output document and no count; (3) the category `"⏺️ GLOBO"` is
flagged; and (4) a concrete `"⏺️ GLOBO"` entry is discarded end to end by
the lexer. -/
theorem ignored_category_discarded :
    (∀ category ignored, ignored ∈ IGNORED_CATEGORIES →
      (category = ignored ∨ pyUpper category = pyUpper ignored ∨
        pyStartsWith (pyUpper category) (pyUpper ignored) = true) →
      should_ignore_category category = true) ∧
    (∀ (urlHash : String → Int) (st : LexState) (rawLine : String),
      pyStartsWith (pyStrip rawLine) "http" = true →
      nameTruthy st.name = true →
      pyEndsWith (pyLower (pyStrip rawLine)) ".ts" = false →
      should_ignore_category (pendingCategory st) = true →
      lexLine urlHash st rawLine = (initState, [])) ∧
    should_ignore_category "⏺️ GLOBO" = true ∧
    (∀ urlHash : String → Int,
      lexAll urlHash initState
        ["#EXTINF:-1 group-title=\"⏺️ GLOBO\",Jornal Nacional", "http://host/jn.mp4"] = []) := by
  refine ⟨?_, ?_, by decide, fun _ => rfl⟩
  · intro category ignored hmem hmatch
    unfold should_ignore_category
    rw [List.any_eq_true]
    refine ⟨ignored, hmem, ?_⟩
    rcases hmatch with h | h | h
    · subst h; simp
    · simp [h]
    · simp [h]
  · intro urlHash st rawLine h1 h2 h3 h4
    simp [lexLine, h1, h2, h3, h4, http_not_extinf _ h1]

/-- C8 witness: the general match modes applied to the prefix case
`"⏺️ globo hd"`, and the discarding step applied to a concrete pending
state with category `"⏺️ GLOBO"`. -/
theorem ignored_category_discarded_witness :
    should_ignore_category "⏺️ globo hd" = true ∧
    lexLine (fun _ => (0 : Int)) ⟨some "Jornal", some "⏺️ GLOBO", none⟩ "http://host/jn.mp4" =
      (initState, []) :=
  ⟨ignored_category_discarded.1 "⏺️ globo hd" "⏺️ GLOBO" (by decide)
      (Or.inr (Or.inr (by decide))),
   ignored_category_discarded.2.1 (fun _ => 0) ⟨some "Jornal", some "⏺️ GLOBO", none⟩
      "http://host/jn.mp4" (by decide) (by decide) (by decide) (by decide)⟩

/-- C6: `normalize_category` coincides with first-match evaluation of the
ordered rule table on the prefix-stripped category (so the chain is
evaluated strictly in the documented order, returns the first matching
rule's canonical name, and passes unmatched strings through unchanged);
in particular `"Netflix Dramas"`-style categories matching both the
platform rule `netflix` and the later genre rule `drama` get the earlier
platform name, and an unmatched category comes back unchanged. -/
theorem normalize_category_first_match :
    (∀ category, normalize_category category = normalizeCategorySpec category) ∧
    pyIn "netflix" (pyLower "Netflix Drama") = true ∧
    pyIn "drama" (pyLower "Netflix Drama") = true ∧
    normalize_category "Netflix Drama" = "Netflix" ∧
    normalize_category "Zzz" = "Zzz" :=
  ⟨fun _ => rfl, by decide, by decide, by decide, by decide⟩

/-- C5: the partitioner coincides with the specified pagination contract —
one unpaginated document when the group's movies+series+adult count is
within the 5000 bound, otherwise one document per consecutive 5000-sized
series chunk (last chunk shorter) with 1-based page numbers and
`totalPages = max(series chunks, movies chunks)` — and a concrete category
of 12000 series items yields exactly three page documents with series
counts 5000, 5000, 2000 and `totalPages = 3` on each. -/
theorem emitCategory_pagination_spec :
    (∀ category items, emitCategory category items = emitCategorySpec category items) ∧
    ((emitCategory "Séries" ((List.range 12000).map sampleSeriesItem)).1.map
        fun p => pageShape p.2) =
      [some (1, 3, 5000), some (2, 3, 5000), some (3, 3, 2000)] := by
  constructor
  · intro category items
    have hk : 0 < MAX_ITEMS_PER_FILE := by decide
    simp only [emitCategory, emitCategorySpec, slicePages_eq_chunksSpec hk,
      mkPageDocs_eq_enumFrom]
    generalize (List.filter (fun m => decide (m.type = ContentType.movie) && !m.isAdult) items) = M
    generalize (List.filter (fun m => decide (m.type = ContentType.series) && !m.isAdult) items) = S
    generalize (List.filter (fun m => m.isAdult) items) = A
    by_cases h : M.length + S.length + A.length ≤ MAX_ITEMS_PER_FILE
    · rw [if_neg (Nat.not_lt.mpr h), if_pos h]
    · rw [if_pos (Nat.not_le.mp h), if_neg h]
  · have hmov : ((List.range 12000).map sampleSeriesItem).filter
        (fun m => decide (m.type = ContentType.movie) && !m.isAdult) = [] := by
      rw [List.filter_map]
      rw [show List.filter ((fun m => decide (m.type = ContentType.movie) && !m.isAdult) ∘
          sampleSeriesItem) (List.range 12000) = [] from
        List.filter_eq_nil_iff.mpr (fun a _ h => nomatch h)]
      rfl
    have hadu : ((List.range 12000).map sampleSeriesItem).filter (fun m => m.isAdult) = [] := by
      rw [List.filter_map]
      rw [show List.filter ((fun m => m.isAdult) ∘ sampleSeriesItem) (List.range 12000) = [] from
        List.filter_eq_nil_iff.mpr (fun a _ h => nomatch h)]
      rfl
    have hser : ((List.range 12000).map sampleSeriesItem).filter
        (fun m => decide (m.type = ContentType.series) && !m.isAdult) =
        (List.range 12000).map sampleSeriesItem := by
      rw [List.filter_map]
      rw [show List.filter ((fun m => decide (m.type = ContentType.series) && !m.isAdult) ∘
          sampleSeriesItem) (List.range 12000) = List.range 12000 from
        List.filter_eq_self.mpr (fun a _ => rfl)]
    have hlen : ((List.range 12000).map sampleSeriesItem).length = 12000 := by simp
    simp only [emitCategory, hmov, hadu, hser, hlen, List.length_nil]
    rw [if_pos (show 0 + 12000 + 0 > MAX_ITEMS_PER_FILE by decide)]
    have hk : 0 < MAX_ITEMS_PER_FILE := by decide
    have hsl : slicePages MAX_ITEMS_PER_FILE (List.map sampleSeriesItem (List.range 12000)) =
        [((List.map sampleSeriesItem (List.range 12000)).drop
            (0 * MAX_ITEMS_PER_FILE)).take MAX_ITEMS_PER_FILE,
         ((List.map sampleSeriesItem (List.range 12000)).drop
            (1 * MAX_ITEMS_PER_FILE)).take MAX_ITEMS_PER_FILE,
         ((List.map sampleSeriesItem (List.range 12000)).drop
            (2 * MAX_ITEMS_PER_FILE)).take MAX_ITEMS_PER_FILE] := by
      unfold slicePages
      rw [hlen, show (12000 + MAX_ITEMS_PER_FILE - 1) / MAX_ITEMS_PER_FILE = 3 by decide,
        show List.range 3 = [0, 1, 2] from rfl]
      rfl
    rw [hsl, slicePages_nil hk]
    simp only [mkPageDocs, List.map_cons, List.map_nil, pageShape, List.length_nil,
      List.isEmpty_nil, if_pos rfl, List.append_nil, List.length_take, List.length_drop, hlen]
    norm_num [MAX_ITEMS_PER_FILE]

/-- C10: for a category group whose total movies+series+adult count
exceeds the 5000 bound while its non-adult series list is empty, the
partitioner writes no base document and no page document — only the
`*_movies` file when movies exist and the `*_adult` side file when adult
items exist — while the category's index entry still reports
`pages = max(0, 1) = 1`, a page count for which no page file exists. -/
theorem oversized_category_without_series :
    ∀ (category : String) (items : List Item),
      items.filter (fun m => decide (m.type = ContentType.series) && !m.isAdult) = [] →
      MAX_ITEMS_PER_FILE <
          (items.filter fun m => decide (m.type = ContentType.movie) && !m.isAdult).length +
          (items.filter fun m => decide (m.type = ContentType.series) && !m.isAdult).length +
          (items.filter fun m => m.isAdult).length →
      (emitCategory category items).1 =
          (if (items.filter fun m => decide (m.type = ContentType.movie) && !m.isAdult).isEmpty
           then []
           else [(category_to_filename category ++ "_movies",
                  Doc.file category
                    (items.filter fun m => decide (m.type = ContentType.movie) && !m.isAdult) [])]) ++
          (if (items.filter fun m => m.isAdult).isEmpty then []
           else [(category_to_filename category ++ "_adult",
                  Doc.adultSide category (items.filter fun m => m.isAdult))]) ∧
      (emitCategory category items).2.pages = some 1 ∧
      (∀ fn d, (fn, d) ∈ (emitCategory category items).1 →
        pageShape d = none ∧ fn ≠ category_to_filename category) := by
  intro category items hser htot
  have hk : 0 < MAX_ITEMS_PER_FILE := by decide
  rw [hser] at htot
  simp only [List.length_nil] at htot
  have hmain : (emitCategory category items).1 =
      (if (items.filter fun m => decide (m.type = ContentType.movie) && !m.isAdult).isEmpty
       then []
       else [(category_to_filename category ++ "_movies",
              Doc.file category
                (items.filter fun m => decide (m.type = ContentType.movie) && !m.isAdult) [])]) ++
      (if (items.filter fun m => m.isAdult).isEmpty then []
       else [(category_to_filename category ++ "_adult",
              Doc.adultSide category (items.filter fun m => m.isAdult))]) := by
    simp only [emitCategory, hser, slicePages_nil hk, List.length_nil, mkPageDocs]
    rw [if_pos (by omega : (items.filter fun m =>
      decide (m.type = ContentType.movie) && !m.isAdult).length + 0 +
      (items.filter fun m => m.isAdult).length > MAX_ITEMS_PER_FILE)]
    simp
  have hpages : (emitCategory category items).2.pages = some 1 := by
    simp only [emitCategory, hser, slicePages_nil hk, List.length_nil]
    rw [if_pos (by omega : (items.filter fun m =>
      decide (m.type = ContentType.movie) && !m.isAdult).length + 0 +
      (items.filter fun m => m.isAdult).length > MAX_ITEMS_PER_FILE)]
    simp
  refine ⟨hmain, hpages, ?_⟩
  intro fn d hmem
  rw [hmain] at hmem
  have hlenne : ∀ suffix : String, 0 < suffix.length →
      category_to_filename category ++ suffix ≠ category_to_filename category := by
    intro suffix hs heq
    have := congrArg String.length heq
    rw [String.length_append] at this
    omega
  rcases List.mem_append.mp hmem with h | h
  · by_cases hh : (items.filter fun m =>
        decide (m.type = ContentType.movie) && !m.isAdult).isEmpty = true
    · rw [if_pos hh] at h; simp at h
    · rw [if_neg hh] at h
      rw [List.mem_singleton] at h
      cases h
      exact ⟨rfl, hlenne "_movies" (by decide)⟩
  · by_cases hh : (items.filter fun m => m.isAdult).isEmpty = true
    · rw [if_pos hh] at h; simp at h
    · rw [if_neg hh] at h
      rw [List.mem_singleton] at h
      cases h
      exact ⟨rfl, hlenne "_adult" (by decide)⟩

/-- A concrete adult movie item. -/
def adultSample : Item :=
  { id := "", name := "Filme XXX", url := "u", type := ContentType.movie, logo := none,
    isAdult := true, seriesInfo := none, category := "Adultos" }

/-- C10 witness: 5001 adult items and nothing else — the total exceeds the
bound, the series list is empty, the index entry claims one page, and the
only document written is the adult side file. -/
theorem oversized_category_without_series_witness :
    (emitCategory "Adultos" (List.replicate 5001 adultSample)).2.pages = some 1 ∧
    (emitCategory "Adultos" (List.replicate 5001 adultSample)).1 =
      [(category_to_filename "Adultos" ++ "_adult",
        Doc.adultSide "Adultos" (List.replicate 5001 adultSample))] := by
  have hser : (List.replicate 5001 adultSample).filter
      (fun m => decide (m.type = ContentType.series) && !m.isAdult) = [] := by
    rw [List.filter_replicate, if_neg (by decide)]
  have hmov : (List.replicate 5001 adultSample).filter
      (fun m => decide (m.type = ContentType.movie) && !m.isAdult) = [] := by
    rw [List.filter_replicate, if_neg (by decide)]
  have hadu : (List.replicate 5001 adultSample).filter (fun m => m.isAdult) =
      List.replicate 5001 adultSample := by
    rw [List.filter_replicate, if_pos (by decide)]
  have htot : MAX_ITEMS_PER_FILE <
      ((List.replicate 5001 adultSample).filter
        (fun m => decide (m.type = ContentType.movie) && !m.isAdult)).length +
      ((List.replicate 5001 adultSample).filter
        (fun m => decide (m.type = ContentType.series) && !m.isAdult)).length +
      ((List.replicate 5001 adultSample).filter (fun m => m.isAdult)).length := by
    rw [hmov, hser, hadu, List.length_replicate]
    decide
  obtain ⟨h1, h2, -⟩ :=
    oversized_category_without_series "Adultos" (List.replicate 5001 adultSample) hser htot
  refine ⟨h2, ?_⟩
  rw [h1, hmov, hadu]
  rw [if_pos (by decide : (([] : List Item)).isEmpty = true),
    if_neg (by decide : ¬(List.replicate 5001 adultSample).isEmpty = true)]
  rw [List.nil_append]

/-- C7: (1) any entry whose `"<name> <category>"` concatenation contains
the adult keyword `"XXX"` is flagged by `is_adult_content`, which is the
value stored in the item's `isAdult` field; (2) the adult, non-adult-movie
and non-adult-series sub-lists of a category group cover the group's
items; (3) they are pairwise disjoint; (4) whenever adult items exist, the
category's `*_adult` side file holding exactly them is emitted; (5) no
document of a category group carries an adult item in its `movies` or
`series` list; and (6) the same holds for every document of a whole run's
output. -/
theorem adult_routing :
    (∀ name category, pyIn "XXX" (name ++ " " ++ category) = true →
      is_adult_content name category = true) ∧
    (∀ (items : List Item) (x : Item), x ∈ items →
      (x ∈ items.filter (fun m => decide (m.type = ContentType.movie) && !m.isAdult) ∨
       x ∈ items.filter (fun m => decide (m.type = ContentType.series) && !m.isAdult) ∨
       x ∈ items.filter (fun m => m.isAdult))) ∧
    (∀ (items : List Item) (x : Item),
      ¬(x ∈ items.filter (fun m => decide (m.type = ContentType.movie) && !m.isAdult) ∧
        x ∈ items.filter (fun m => decide (m.type = ContentType.series) && !m.isAdult)) ∧
      ¬(x ∈ items.filter (fun m => decide (m.type = ContentType.movie) && !m.isAdult) ∧
        x ∈ items.filter (fun m => m.isAdult)) ∧
      ¬(x ∈ items.filter (fun m => decide (m.type = ContentType.series) && !m.isAdult) ∧
        x ∈ items.filter (fun m => m.isAdult))) ∧
    (∀ (category : String) (items : List Item),
      items.filter (fun m => m.isAdult) ≠ [] →
      (category_to_filename category ++ "_adult",
        Doc.adultSide category (items.filter fun m => m.isAdult)) ∈
        (emitCategory category items).1) ∧
    (∀ (category : String) (items : List Item) (fn : String) (d : Doc) (x : Item),
      (fn, d) ∈ (emitCategory category items).1 →
      (x ∈ docMovies d ∨ x ∈ docSeries d) → x.isAdult = false) ∧
    (∀ (urlHash : String → Int) (now : String) (files : List String)
        (fn : String) (d : Doc) (x : Item),
      (fn, d) ∈ (run urlHash now files).catFiles →
      (x ∈ docMovies d ∨ x ∈ docSeries d) → x.isAdult = false) := by
  refine ⟨?_, ?_, ?_, ?_, emitCategory_no_adult, ?_⟩
  · intro name category h
    unfold is_adult_content
    rw [List.any_eq_true]
    exact ⟨"XXX", by decide, h⟩
  · intro items x hx
    by_cases ha : x.isAdult = true
    · exact Or.inr (Or.inr (List.mem_filter.mpr ⟨hx, ha⟩))
    · rw [Bool.not_eq_true] at ha
      cases ht : x.type with
      | movie =>
        exact Or.inl (List.mem_filter.mpr ⟨hx, by simp [ht, ha]⟩)
      | series =>
        exact Or.inr (Or.inl (List.mem_filter.mpr ⟨hx, by simp [ht, ha]⟩))
  · intro items x
    refine ⟨?_, ?_, ?_⟩ <;> rintro ⟨h1, h2⟩
    · have b1 := (List.mem_filter.mp h1).2
      have b2 := (List.mem_filter.mp h2).2
      rw [Bool.and_eq_true, decide_eq_true_eq] at b1 b2
      rw [b1.1] at b2
      exact absurd b2.1 (by decide)
    · have b1 := (List.mem_filter.mp h1).2
      have b2 := (List.mem_filter.mp h2).2
      rw [Bool.and_eq_true] at b1
      simp only [b2] at b1
      exact absurd b1.2 (by decide)
    · have b1 := (List.mem_filter.mp h1).2
      have b2 := (List.mem_filter.mp h2).2
      rw [Bool.and_eq_true] at b1
      simp only [b2] at b1
      exact absurd b1.2 (by decide)
  · intro category items hne
    have hemp : (items.filter fun m => m.isAdult).isEmpty = false := by
      rcases hc : items.filter fun m => m.isAdult with _ | _
      · exact absurd hc hne
      · rw [hc]; rfl
    simp only [emitCategory, hemp]
    split
    · refine List.mem_append.mpr (Or.inr ?_)
      simp
    · refine List.mem_cons.mpr (Or.inr ?_)
      simp
  · intro urlHash now files fn d x hmem hx
    simp only [run] at hmem
    obtain ⟨L, hL, hmemL⟩ := List.mem_flatten.mp hmem
    obtain ⟨pr, hpr, hLeq⟩ := List.mem_map.mp hL
    obtain ⟨g, hg, hpreq⟩ := List.mem_map.mp hpr
    rw [← hLeq, ← hpreq] at hmemL
    exact emitCategory_no_adult g.1 g.2 fn d x hmemL hx

/-- C7 witness: the keyword rule applied at a concrete name/category pair,
and the adult side file emitted for a concrete singleton adult group. -/
theorem adult_routing_witness :
    is_adult_content "Movie XXX" "Filmes" = true ∧
    (category_to_filename "Adultos" ++ "_adult",
      Doc.adultSide "Adultos" ([adultSample].filter fun m => m.isAdult)) ∈
      (emitCategory "Adultos" [adultSample]).1 :=
  ⟨adult_routing.1 "Movie XXX" "Filmes" (by decide),
   adult_routing.2.2.2.1 "Adultos" [adultSample] (by decide)⟩

/-- C1: the deduplication stage keeps exactly the first entry for each
distinct url, dropping all later entries with that url while preserving
order of first appearance (it equals the specified `keepFirst` recursion);
the urls of its output are pairwise distinct; and consequently the urls of
all items across every document of a whole run's output are pairwise
distinct. -/
theorem dedup_first_occurrence_and_unique_urls :
    (∀ items, dedup items = keepFirst items) ∧
    (∀ items, ((dedup items).map fun i => i.url).Nodup) ∧
    (∀ (urlHash : String → Int) (now : String) (files : List String),
      ((((run urlHash now files).catFiles.map
          fun p => docMovies p.2 ++ docSeries p.2 ++ docAdultItems p.2).flatten).map
          fun i => i.url).Nodup) := by
  refine ⟨dedup_eq_keepFirst, ?_, ?_⟩
  · intro items
    exact (dedupGo_nodup items []).1
  · intro urlHash now files
    have hgroups : ∀ (groups : List (String × List Item)),
        ((((groups.map fun g => emitCategory g.1 g.2).map Prod.fst).flatten).map
          (fun p => docMovies p.2 ++ docSeries p.2 ++ docAdultItems p.2)).flatten ~
        ((groups.map fun g => g.2).flatten) := by
      intro groups
      induction groups with
      | nil => simp
      | cons g gs ih =>
        simp only [List.map_cons, List.flatten_cons, List.map_append, List.flatten_append]
        exact (emitCategory_flatten_perm g.1 g.2).append ih
    have hperm : (((run urlHash now files).catFiles.map
        fun p => docMovies p.2 ++ docSeries p.2 ++ docAdultItems p.2).flatten) ~
        dedup ((files.map fun content => parseContent urlHash content).flatten) := by
      simp only [run]
      exact (hgroups (groupByCat (dedup ((files.map fun content =>
        parseContent urlHash content).flatten)))).trans (groupByCat_flatten_perm _)
    exact ((hperm.map fun i => i.url).nodup_iff).mpr
      ((dedupGo_nodup ((files.map fun content => parseContent urlHash content).flatten) []).1)

/-- C2 (counterexample): two runs over the same input (here: no input
items at all) with different clock readings produce different output
documents — `index.json` embeds `generatedAt = datetime.now().isoformat()`,
so the output is not byte-identical across runs.  (The item ids likewise
vary with the per-process salted string hash, as
`generate_id_varies_with_hash_seed` shows.) -/
theorem run_not_bytewise_deterministic :
    run (fun _ => 0) "2025-01-01T00:00:00" [] ≠ run (fun _ => 0) "2025-01-01T00:00:01" [] := by
  decide

/-- C2 (amended): up to the two run-dependent values — the item ids
(derived from Python's per-process salted string hash) and the index's
generation timestamp — the output of a run is a deterministic function of
the input files alone.  In particular the order of categories, the order
and identity of items within each category document, and the order and
content of the index entries never depend on the hash seed or the clock. -/
theorem run_shape_deterministic :
    ∀ (files : List String) (h1 h2 : String → Int) (t1 t2 : String),
      stripRun (run h1 t1 files) = stripRun (run h2 t2 files) := by
  intro files h1 h2 t1 t2
  have hitems : ((files.map fun c => parseContent h1 c).flatten).map stripItem =
      ((files.map fun c => parseContent h2 c).flatten).map stripItem := by
    induction files with
    | nil => rfl
    | cons f rest ih =>
      simp only [List.map_cons, List.flatten_cons, List.map_append]
      rw [ih]
      congr 1
      exact lexAll_hash_invariant h1 h2 (f.splitOn "\n") initState
  have hgroups :
      stripGroups (groupByCat (dedup ((files.map fun c => parseContent h1 c).flatten))) =
      stripGroups (groupByCat (dedup ((files.map fun c => parseContent h2 c).flatten))) := by
    rw [← groupByCat_strip, ← groupByCat_strip, ← dedup_map_stripItem, ← dedup_map_stripItem,
      hitems]
  have hD :
      ((((groupByCat (dedup ((files.map fun c => parseContent h1 c).flatten))).map
          fun g => emitCategory g.1 g.2).map Prod.fst).flatten).map
        (fun p => (p.1, stripDoc p.2)) =
      ((((groupByCat (dedup ((files.map fun c => parseContent h2 c).flatten))).map
          fun g => emitCategory g.1 g.2).map Prod.fst).flatten).map
        (fun p => (p.1, stripDoc p.2)) := by
    rw [runDocs_strip, hgroups, ← runDocs_strip]
  have hE :
      (((groupByCat (dedup ((files.map fun c => parseContent h1 c).flatten))).map
        fun g => emitCategory g.1 g.2).map Prod.snd) =
      (((groupByCat (dedup ((files.map fun c => parseContent h2 c).flatten))).map
        fun g => emitCategory g.1 g.2).map Prod.snd) := by
    rw [runEntries_strip, hgroups, ← runEntries_strip]
  simp only [run, stripRun]
  rw [hE] at *
  congr 1

end Catalog
